import Mathlib

/-!
Verification of the yosys-to-digitaljs netlist converter core.

The definitions below are a shallow embedding of the converter's data
model and operations.  JavaScript objects used as insertion-ordered maps
(the `hashmap` net map, `Map`s, and plain objects) are represented as
insertion-ordered association lists; generated device identifiers
`dev<N>` are represented by their numeric counter value `N`.
-/

deriving instance DecidableEq for Except

namespace Y2D

/-- A bit of a Yosys bit-vector: a literal character (`"0"`, `"1"`, `"x"`,
`"z"` in well-formed input), an integer net identifier, or a generated
`bit<N>` name produced by `gen_bitname`. -/
inductive Bit where
  | const (c : Char)
  | id (n : Nat)
  | gen (n : Nat)
deriving DecidableEq, Repr

/-- The constant bit characters (`Yosys.ConstChars`). -/
def ConstChars : List Char := ['0', '1', 'x', 'z']

/-- JavaScript `String(bit)` coercion used by `constbit` and by the
constant-payload `join('')`. -/
def bitToString : Bit → String
  | .const c => String.singleton c
  | .id n => toString n
  | .gen n => "bit" ++ toString n

/-- `constbit`: whether `ConstChars.includes(bit.toString())`.  Note the
JS string coercion makes the numeric bits `0` and `1` count as constants
as well. -/
def constbit (b : Bit) : Bool :=
  ConstChars.contains (match b with
    | .const c => c
    | .id n => if n = 0 then '0' else if n = 1 then '1' else '?'
    | .gen _ => '?')

/-- JavaScript loose equality `bit == '0'` as used by the zero-run test in
the grouping phase: true for the literal character `'0'` and for the
numeric bit `0`. -/
def jsEqChar0 : Bit → Bool
  | .const c => c = '0'
  | .id n => n = 0
  | .gen _ => false

/-- A device port reference `{id, port}` (`Digitaljs.Port`); `id` holds
the numeric part of the generated `dev<N>` name. -/
structure Port where
  id : Nat
  port : String
deriving DecidableEq, Repr

/-- A bit-provenance entry `{id, port, num}` (`BitInfo`). -/
structure BitInfo where
  id : Nat
  port : String
  num : Nat
deriving DecidableEq, Repr

/-- Net bookkeeping record (`NetInfo`).  Source positions are omitted:
no property proved here inspects them. -/
structure NetInfo where
  source : Option Port := none
  targets : List Port := []
  name : Option String := none
deriving DecidableEq, Repr

/-- The `extend: {input, output}` attribute of extension devices. -/
structure ExtendInfo where
  input : Nat
  output : Nat
deriving DecidableEq, Repr

/-- The `slice: {first, count, total}` attribute of `BusSlice` devices. -/
structure SliceInfo where
  first : Nat
  count : Nat
  total : Nat
deriving DecidableEq, Repr

/-- A digitaljs device.  The closed attribute vocabulary relevant to the
operations embedded here is flattened into optional fields; fields absent
on a JS device object are `none`. -/
structure Device where
  type : String
  label : Option String := none
  net : Option String := none
  order : Option Nat := none
  bits : Option Nat := none
  constant : Option String := none
  extend : Option ExtendInfo := none
  groups : Option (List Nat) := none
  slice : Option SliceInfo := none
  propagation : Option Nat := none
deriving DecidableEq, Repr

/-- A connector `{from, to, name?}` (`Digitaljs.Connector`); `from`/`to`
are spelled `fromP`/`toP` because `from` is a Lean keyword.  Source
positions are omitted. -/
structure Connector where
  fromP : Port
  toP : Port
  name : Option String := none
deriving DecidableEq, Repr

/-! ### Association-list primitives

Insertion-ordered maps.  `lookupEntry` finds the first binding,
`updEntry` rewrites an existing binding in place, `setEntry` is the
JS `Map.set` / `HashMap.set`: overwrite in place or append. -/

def lookupEntry {α β : Type} [DecidableEq α] (k : α) : List (α × β) → Option β
  | [] => none
  | (a, b) :: t => if a = k then some b else lookupEntry k t

def updEntry {α β : Type} [DecidableEq α] (k : α) (f : β → β) : List (α × β) → List (α × β)
  | [] => []
  | (a, b) :: t => if a = k then (a, f b) :: t else (a, b) :: updEntry k f t

def setEntry {α β : Type} [DecidableEq α] (k : α) (v : β) (l : List (α × β)) : List (α × β) :=
  if (lookupEntry k l).isSome then updEntry k (fun _ => v) l else l ++ [(k, v)]

/-! ### Converter state

The per-module mutable state of `yosys_to_digitaljs_mod`: the net map,
the harvested net names, the bit provenance table, the device-port-net
index, the device counter and the output-in-progress. -/

structure ConvState where
  nets : List (List Bit × NetInfo) := []
  netnames : List (List Bit × List String) := []
  bits : List (Bit × BitInfo) := []
  devnets : List (Nat × List (String × List Bit)) := []
  n : Nat := 0
  devices : List (Nat × Device) := []
  connectors : List Connector := []
deriving DecidableEq, Repr

/-- `get_net`: fetch the net record for a bit-vector, creating it (with
the first harvested non-hidden name, if any) when absent. -/
def get_net (s : ConvState) (k : List Bit) : NetInfo × ConvState :=
  match lookupEntry k s.nets with
  | some i => (i, s)
  | none =>
    let nm := (lookupEntry k s.netnames).bind List.head?
    let i : NetInfo := { source := none, targets := [], name := nm }
    (i, { s with nets := s.nets ++ [(k, i)] })

/-- JS string interpolation of an optional name (`'...' + net.name`
prints `undefined` for an absent name). -/
def jsShowOptName : Option String → String
  | some s => s
  | none => "undefined"

/-- `add_net_source`: register device port `(d, p)` as the source of net
`k`.  Empty vectors (unconnected ports) are a no-op; a second source on a
net is a fatal `Multiple sources driving net` error; a `primary` source
additionally records per-bit provenance and the device-port-net index is
updated. -/
def add_net_source (s : ConvState) (k : List Bit) (d : Nat) (p : String)
    (primary : Bool := false) : Except String ConvState :=
  if k = [] then .ok s else
  let (net, s) := get_net s k
  if net.source.isSome then
    .error ("Multiple sources driving net: " ++ jsShowOptName net.name)
  else
    let s := { s with nets := updEntry k (fun i => { i with source := some (Port.mk d p) }) s.nets }
    let s := if primary then
        { s with bits := (k.enum.foldl (fun bm (e : Nat × Bit) =>
            setEntry e.2 (BitInfo.mk d p e.1) bm) s.bits) }
      else s
    .ok { s with devnets := updEntry d (setEntry p k) s.devnets }

/-- `add_net_target`: register device port `(d, p)` as one more target of
net `k`.  Empty vectors (unconnected ports) are a no-op. -/
def add_net_target (s : ConvState) (k : List Bit) (d : Nat) (p : String) : ConvState :=
  if k = [] then s else
  let (net, s) := get_net s k
  let s := { s with nets := updEntry k (fun i => { i with targets := net.targets ++ [Port.mk d p] }) s.nets }
  { s with devnets := updEntry d (setEntry p k) s.devnets }

/-- Application of the `propagation` convert option to a new device
(`if (options.propagation !== undefined) dev.propagation = ...`). -/
def withPropagation (opts : Option Nat) (dev : Device) : Device :=
  match opts with
  | some p => { dev with propagation := some p }
  | none => dev

/-- `add_device` (including `gen_name`): allocate the next device id,
apply the `propagation` option if given, and append the device. -/
def add_device (opts : Option Nat) (s : ConvState) (dev : Device) : Nat × ConvState :=
  (s.n, { s with
    n := s.n + 1,
    devnets := s.devnets ++ [(s.n, [])],
    devices := s.devices ++ [(s.n, withPropagation opts dev)] })

/-- `add_busgroup`: unless the vector is already driven, insert a
`BusGroup` over the given runs, source the whole vector from it and
target each run on `in<k>`. -/
def add_busgroup (opts : Option Nat) (s : ConvState) (nbits : List Bit)
    (groups : List (List Bit)) : Except String ConvState :=
  let (i, s) := get_net s nbits
  if i.source.isSome then .ok s
  else
    let (dname, s) := add_device opts s { type := "BusGroup", groups := some (groups.map List.length) }
    match add_net_source s nbits dname "out" with
    | .error e => .error e
    | .ok s => .ok ((groups.enum).foldl (fun s (e : Nat × List Bit) =>
        add_net_target s e.2 dname ("in" ++ toString e.1)) s)

/-! ### Parameter decoding -/

/-- A Yosys JSON parameter: an integer or a binary string
(`Yosys.JsonConstant`).  Numeric parameters in well-formed output are
non-negative. -/
inductive JsonConstant where
  | num (n : Nat)
  | str (s : String)
deriving DecidableEq, Repr

/-- JavaScript `Number.parseInt(s, 2)`: parse the longest prefix of
binary digits (`NaN`, i.e. an empty prefix, is modelled as 0; the
converter only applies this to well-formed binary strings). -/
def jsParseBin (s : String) : Nat :=
  (s.toList.takeWhile (fun c => c = '0' ∨ c = '1')).foldl
    (fun a c => 2 * a + (if c = '1' then 1 else 0)) 0

/-- `decode_json_number`: normalize an integer-or-binary-string parameter
to a number. -/
def decode_json_number : JsonConstant → Nat
  | .num n => n
  | .str s => jsParseBin s

/-! ### The `$pmux` wirer -/

/-- The connections and parameters of a `$pmux` cell that its dedicated
wirer reads. -/
structure PmuxCell where
  A : List Bit
  B : List Bit
  S : List Bit
  Y : List Bit
  WIDTH : JsonConstant
  S_WIDTH : JsonConstant

/-- `connect_pmux`: A to `in0`, the reversed select vector to `sel`, Y as
primary source of `out`, and the `WIDTH`-bit slice of B at offset
`(S_WIDTH-i-1)*WIDTH` to `in<i+1>` for each `i < S_WIDTH`. -/
def connect_pmux (s : ConvState) (dname : Nat) (cell : PmuxCell) :
    Except String ConvState :=
  let s := add_net_target s cell.A dname "in0"
  let s := add_net_target s cell.S.reverse dname "sel"
  match add_net_source s cell.Y dname "out" true with
  | .error e => .error e
  | .ok s =>
    .ok ((List.range (decode_json_number cell.S_WIDTH)).foldl (fun s i =>
      add_net_target s
        ((cell.B.drop ((decode_json_number cell.S_WIDTH - i - 1) * decode_json_number cell.WIDTH)).take
          (decode_json_number cell.WIDTH))
        dname ("in" ++ toString (i + 1))) s)

/-! ### The grouping pass -/

/-- The discriminator the grouping loop keeps per bit: the JS values
`undefined`, the string `'const'`, or a provenance object. -/
inductive BInfo where
  | undefBit
  | cst
  | obj (i : BitInfo)
deriving DecidableEq, Repr

/-- `bits.get(bit)`, demoted to `'const'` for constant bits without
provenance. -/
def binfoOf (bm : List (Bit × BitInfo)) (b : Bit) : BInfo :=
  match lookupEntry b bm with
  | some i => .obj i
  | none => if constbit b then .cst else .undefBit

/-- Negation of the run-splitting condition: two adjacent bits stay in
the same run iff their infos have the same JS `typeof` and, for two
provenance objects, the same device and port at consecutive indices. -/
def sameRun (p c : BInfo) : Bool :=
  match p, c with
  | .obj a, .obj b => a.id = b.id && a.port = b.port && b.num = a.num + 1
  | .undefBit, .undefBit => true
  | .cst, .cst => true
  | _, _ => false

/-- One iteration of the run-partitioning loop: start a new run when the
current run is non-empty and the split condition holds, then append the
bit to the current run. -/
def computeGroupsStep (bm : List (Bit × BitInfo)) (acc : List (List Bit) × BInfo)
    (bit : Bit) : List (List Bit) × BInfo :=
  let bi := binfoOf bm bit
  let groups := if (acc.1.getLastD []).length > 0 && !(sameRun acc.2 bi)
    then acc.1 ++ [[]] else acc.1
  (groups.dropLast ++ [groups.getLastD [] ++ [bit]], bi)

/-- The run-partitioning loop of the grouping pass: walk the vector
left-to-right, starting a new run whenever the current run is non-empty
and the split condition holds. -/
def computeGroups (bm : List (Bit × BitInfo)) (nbits : List Bit) : List (List Bit) :=
  (nbits.foldl (computeGroupsStep bm) ([[]], BInfo.undefBit)).1

/-- One iteration of the grouping pass for the net keyed `nbits`: skip
driven nets and single-run vectors; infer a `ZeroExtend` when the final
run is all zero bits (bus-grouping a many-run prefix); otherwise insert a
`BusGroup` over the runs. -/
def group_step (opts : Option Nat) (s : ConvState) (nbits : List Bit) :
    Except String ConvState :=
  match lookupEntry nbits s.nets with
  | none => .ok s
  | some net =>
    if net.source.isSome then .ok s
    else
      let groups := computeGroups s.bits nbits
      if groups.length = 1 then .ok s
      else if (groups.getLastD []).all jsEqChar0 then
        let ilen := nbits.length - (groups.getLastD []).length
        let (dname, s) := add_device opts s
          { type := "ZeroExtend", extend := some (ExtendInfo.mk ilen nbits.length) }
        let zbits := nbits.take ilen
        match add_net_source s nbits dname "out" with
        | .error e => .error e
        | .ok s =>
          let s := add_net_target s zbits dname "in"
          if groups.length > 2 then add_busgroup opts s zbits groups.dropLast
          else .ok s
      else add_busgroup opts s nbits groups

/-- The grouping pass: run `group_step` over a snapshot of the net keys
(nets created during the pass are not revisited, matching iteration over
`nets.entries()`). -/
def groupPass (opts : Option Nat) (s : ConvState) : Except String ConvState :=
  (s.nets.map Prod.fst).foldlM (group_step opts) s

/-! ### The constants pass -/

/-- The `Constant` payload: the bit-vector reversed and joined into a
string, MSB-first. -/
def bitsToConstStr (k : List Bit) : String :=
  String.join (k.reverse.map bitToString)

/-- One iteration of the constants pass: an undriven net all of whose
bits are constants gets a fresh `Constant` device as its source. -/
def const_step (opts : Option Nat) (s : ConvState) (nbits : List Bit) :
    Except String ConvState :=
  match lookupEntry nbits s.nets with
  | none => .ok s
  | some net =>
    if net.source.isSome then .ok s
    else if !(nbits.all constbit) then .ok s
    else
      let (dname, s) := add_device opts s
        { type := "Constant", constant := some (bitsToConstStr nbits) }
      add_net_source s nbits dname "out"

/-- The constants pass over a snapshot of the net keys. -/
def constPass (opts : Option Nat) (s : ConvState) : Except String ConvState :=
  (s.nets.map Prod.fst).foldlM (const_step opts) s

/-! ### Connector emission -/

/-- JS truthiness of the optional net name (`if (net.name)`): an absent
or empty name is not attached. -/
def truthyName : Option String → Option String
  | some nm => if nm = "" then none else some nm
  | none => none

/-- One iteration of the connector-emission loop: push the connector
for one target; when this is not the first connector of the net and the
source device is a `Constant`, first synthesize a fresh `Constant`
carrying the same payload and redirect `from` to it.  The boolean in
the accumulator is the loop's `first` flag. -/
def emit_step (opts : Option Nat) (src : Port) (nm : Option String)
    (acc : ConvState × Bool) (tgt : Port) : ConvState × Bool :=
  let s := acc.1
  let conn : Connector := { fromP := src, toP := tgt, name := nm }
  if !acc.2 && ((lookupEntry src.id s.devices).map Device.type == some "Constant") then
    let payload := (lookupEntry src.id s.devices).bind Device.constant
    let (dname, s) := add_device opts s { type := "Constant", constant := payload }
    ({ s with connectors := s.connectors ++ [{ conn with fromP := Port.mk dname "out" }] }, false)
  else
    ({ s with connectors := s.connectors ++ [conn] }, false)

/-- Emit the connectors of one net: one connector per target in
insertion order; from the second connector on, a `Constant` source is
replicated into a fresh device to keep the diagram readable. -/
def emit_net (opts : Option Nat) (s : ConvState) (entry : List Bit × NetInfo) :
    ConvState :=
  match entry.2.source with
  | none => s
  | some src =>
    (entry.2.targets.foldl (emit_step opts src (truthyName entry.2.name)) (s, true)).1

/-- The connector-emission pass over a snapshot of the net entries. -/
def emitPass (opts : Option Nat) (s : ConvState) : ConvState :=
  s.nets.foldl (emit_net opts) s

/-- The final passes of the module converter in their strict order:
grouping, constants, connector emission (the `BusSlice` pass, which none
of the proved properties touch, sits between the last two in the source
and resolves further nets the same way). -/
def finishPasses (opts : Option Nat) (s : ConvState) : Except String ConvState := do
  let s ← groupPass opts s
  let s ← constPass opts s
  .ok (emitPass opts s)

/-! ### `$mem` / `$mem_v2` INIT decoding -/

/-- JS truthiness of a parameter value (`if (cell.parameters.INIT)`). -/
def jsTruthy : JsonConstant → Bool
  | .num n => n ≠ 0
  | .str s => s ≠ ""

/-- The least-significant-bit-first character array `init` built from the
`INIT` parameter: a numeric parameter through
`bigInt(…).toArray(2).value.map(String).reverse()`, a string through
`split('').reverse()`. -/
def initChars : JsonConstant → List Char
  | .num n => (Nat.toDigits 2 n).reverse
  | .str s => s.toList.reverse

/-- The word-slicing loop of the `$mem` lowering: cut the LSB-first
`init` array into `words` words of `bits` characters, pad short words at
the most-significant end with `'x'` if the last element of `init` is
`'x'` and `'0'` otherwise, and render each word MSB-first. -/
def memdataWords (bits words : Nat) (init : List Char) : List String :=
  let l := if init.getLast? = some 'x' then 'x' else '0'
  (List.range words).map (fun k =>
    let wrd := (init.drop (bits * k)).take bits
    String.mk ((wrd ++ List.replicate (bits - wrd.length) l).reverse))

/-- The `memdata` field of a `Memory` device.  The `init` character
array is computed *before* the `if (cell.parameters.INIT)` guard: for
an absent `INIT` the `typeof … == 'number'` test fails and
`undefined.split('')` throws a `TypeError`, aborting the conversion.
When `INIT` is present, `memdata` (modelled as the list of per-word
MSB-first binary strings handed to `Vector3vl.fromBin`) is attached
only if `INIT` is truthy. -/
def mem_memdata (INIT : Option JsonConstant) (bits words : Nat) :
    Except String (Option (List String)) :=
  match INIT with
  | none => .error "TypeError"
  | some c =>
    let init := initChars c
    if jsTruthy c then .ok (some (memdataWords bits words init)) else .ok none

/-- Specification-side description of word `k` for a string `INIT`:
the `bits`-character substring of the (MSB-first) INIT string ending
`bits * k` characters from its right end, left-padded to `bits`
characters with `pad`.  Stated over the original string with no
reversals; the theorem for `mem_memdata` connects the implementation's
double reversal to this direct reading. -/
def memWordSpec (s : String) (bits k : Nat) (pad : Char) : String :=
  let lo := s.length - bits * (k + 1)
  let hi := s.length - bits * k
  let sub := (s.toList.drop lo).take (hi - lo)
  String.mk (List.replicate (bits - sub.length) pad ++ sub)

/-! ### The I/O UI mapper (`io_ui`) -/

/-- The per-device rewriting of `io_ui`, applied in source order: relabel
`Input`/`Output` devices by their port net name, turn 1-bit inputs named
`clk`/`clock` into a `Clock` with propagation 100, remaining inputs into
`Button`/`NumEntry` by width, and outputs into `Lamp`, `Display7` (8-bit
with a `display7`/`display7_…` label) or `NumDisplay`. -/
def io_ui_dev (dev : Device) : Device :=
  let dev := if dev.type == "Input" || dev.type == "Output"
    then { dev with label := dev.net } else dev
  let dev := if dev.type == "Input" && dev.bits == some 1
      && (dev.label == some "clk" || dev.label == some "clock")
    then { dev with type := "Clock", propagation := some 100 } else dev
  let dev := if dev.type == "Input"
    then { dev with type := if dev.bits == some 1 then "Button" else "NumEntry" } else dev
  let dev := if dev.type == "Output"
    then { dev with type :=
      if dev.bits == some 1 then "Lamp"
      else if dev.bits == some 8
          && (dev.label == some "display7" || (dev.label.getD "").startsWith "display7_")
        then "Display7"
      else "NumDisplay" }
    else dev
  dev

/-- `io_ui`: rewrite every device of an output module. -/
def io_ui (devices : List (Nat × Device)) : List (Nat × Device) :=
  devices.map (fun e => (e.1, io_ui_dev e.2))

/-! ### Module dependencies and top-level assembly -/

/-- A vertex of the module-dependency graph: a module name or the
artificial `1/0 = Infinity` sink. -/
inductive V where
  | str (s : String)
  | inf
deriving DecidableEq, Repr

/-- The part of a module that `module_deps` reads: the map from cell
names to cell type strings. -/
structure DepModule where
  cells : List (String × String)
deriving DecidableEq, Repr

/-- `module_deps`: for every module an edge to the infinity sink, and for
every cell whose type is itself a module an edge from the instantiated
module to the instantiating one. -/
def module_deps (data : List (String × DepModule)) : List (V × V) :=
  data.flatMap (fun nm =>
    (V.str nm.1, V.inf) :: nm.2.cells.filterMap (fun c =>
      if (lookupEntry c.2 data).isSome then some (V.str c.2, V.str nm.1) else none))

/-- The vertex set of the dependency graph: the infinity sink and the
module names. -/
def depVerts (data : List (String × DepModule)) : List V :=
  V.inf :: data.map (fun nm => V.str nm.1)

/-- What the external `topsort` library guarantees about its result: a
duplicate-free enumeration of the vertices in which every edge goes
left to right. -/
def isTopolOrder (edges : List (V × V)) (verts : List V) (order : List V) : Prop :=
  order.Nodup ∧ (∀ v ∈ order, v ∈ verts) ∧ (∀ v ∈ verts, v ∈ order) ∧
    ∀ e ∈ edges, order.indexOf e.1 < order.indexOf e.2

instance (edges : List (V × V)) (verts : List V) (order : List V) :
    Decidable (isTopolOrder edges verts order) := by
  unfold isTopolOrder; infer_instance

/-- The top-level assembler of `yosys2digitaljs`, parametric in the
per-module conversion result: drop the infinity sink from the sorted
order, pop the top module, and key every remaining module into
`subcircuits` in order.  `convert` stands for lookup in the map of
converted modules; `dflt` is the junk value of the ill-formed case (an
empty order), which the theorems never reach. -/
def assemble {M : Type} (convert : String → M) (dflt : M) (order : List V) :
    M × List (String × M) :=
  let toporder := order.dropLast
  match toporder.getLast? with
  | some (V.str t) =>
    (convert t, toporder.dropLast.filterMap (fun v =>
      match v with
      | V.str s => some (s, convert s)
      | V.inf => none))
  | _ => (dflt, [])

/-! ## State accessors -/

/-- The source recorded for a bit-vector net, `none` when the net is
absent or undriven. -/
def sourceOf (s : ConvState) (k : List Bit) : Option Port :=
  (lookupEntry k s.nets).bind NetInfo.source

/-- The target list recorded for a bit-vector net. -/
def targetsOf (s : ConvState) (k : List Bit) : List Port :=
  ((lookupEntry k s.nets).map NetInfo.targets).getD []

/-- The display name recorded for a bit-vector net. -/
def netNameAt (s : ConvState) (k : List Bit) : Option String :=
  (lookupEntry k s.nets).bind NetInfo.name

/-! ## Association-list lemmas -/

theorem lookupEntry_updEntry_self {α β : Type} [DecidableEq α] (k : α) (f : β → β)
    (l : List (α × β)) : lookupEntry k (updEntry k f l) = (lookupEntry k l).map f := by
  induction l with
  | nil => simp [lookupEntry, updEntry]
  | cons hd tl ih =>
    obtain ⟨a, b⟩ := hd
    by_cases h : a = k <;> simp [lookupEntry, updEntry, h, ih]

theorem lookupEntry_updEntry_ne {α β : Type} [DecidableEq α] {k k' : α} (f : β → β)
    (l : List (α × β)) (h : k' ≠ k) :
    lookupEntry k' (updEntry k f l) = lookupEntry k' l := by
  induction l with
  | nil => simp [lookupEntry, updEntry]
  | cons hd tl ih =>
    obtain ⟨a, b⟩ := hd
    by_cases ha : a = k
    · subst ha
      have hne : ¬(a = k') := fun hh => h hh.symm
      simp [lookupEntry, updEntry, hne]
    · simp only [updEntry, ha, if_false]
      simp [lookupEntry, ih]

theorem lookupEntry_append {α β : Type} [DecidableEq α] (k : α) (l₁ l₂ : List (α × β)) :
    lookupEntry k (l₁ ++ l₂) =
      match lookupEntry k l₁ with
      | some v => some v
      | none => lookupEntry k l₂ := by
  induction l₁ with
  | nil => simp [lookupEntry]
  | cons hd tl ih =>
    obtain ⟨a, b⟩ := hd
    by_cases h : a = k <;> simp [lookupEntry, h, ih]

theorem lookupEntry_append_left {α β : Type} [DecidableEq α] {k : α} {l₁ : List (α × β)}
    (l₂ : List (α × β)) {v : β} (h : lookupEntry k l₁ = some v) :
    lookupEntry k (l₁ ++ l₂) = some v := by
  rw [lookupEntry_append, h]

theorem lookupEntry_append_right {α β : Type} [DecidableEq α] {k : α} {l₁ : List (α × β)}
    (l₂ : List (α × β)) (h : lookupEntry k l₁ = none) :
    lookupEntry k (l₁ ++ l₂) = lookupEntry k l₂ := by
  rw [lookupEntry_append, h]

theorem lookupEntry_setEntry_self {α β : Type} [DecidableEq α] (k : α) (v : β)
    (l : List (α × β)) : lookupEntry k (setEntry k v l) = some v := by
  unfold setEntry
  by_cases h : (lookupEntry k l).isSome
  · obtain ⟨w, hw⟩ := Option.isSome_iff_exists.mp h
    simp [h, lookupEntry_updEntry_self, hw]
  · simp only [h, if_false, Bool.false_eq_true]
    rw [lookupEntry_append_right _ (Option.not_isSome_iff_eq_none.mp h)]
    simp [lookupEntry]

theorem lookupEntry_setEntry_ne {α β : Type} [DecidableEq α] {k k' : α} (v : β)
    (l : List (α × β)) (h : k' ≠ k) :
    lookupEntry k' (setEntry k v l) = lookupEntry k' l := by
  unfold setEntry
  by_cases hs : (lookupEntry k l).isSome
  · simp [hs, lookupEntry_updEntry_ne _ _ h]
  · simp only [hs, if_false, Bool.false_eq_true]
    rw [lookupEntry_append]
    cases hl : lookupEntry k' l with
    | some v' => simp
    | none => simp [lookupEntry, Ne.symm h]

theorem updEntry_keys {α β : Type} [DecidableEq α] (k : α) (f : β → β) (l : List (α × β)) :
    (updEntry k f l).map Prod.fst = l.map Prod.fst := by
  induction l with
  | nil => rfl
  | cons hd tl ih =>
    obtain ⟨a, b⟩ := hd
    by_cases h : a = k <;> simp [updEntry, h, ih]

/-! ## Effect lemmas for the primitive operations -/

theorem get_net_of_mem {s : ConvState} {k : List Bit} {i : NetInfo}
    (h : lookupEntry k s.nets = some i) : get_net s k = (i, s) := by
  simp [get_net, h]

theorem add_net_target_nonempty {s : ConvState} {k : List Bit} (d : Nat) (p : String)
    (hk : k ≠ []) :
    add_net_target s k d p =
      (let (net, s') := get_net s k
       { s' with
          nets := updEntry k (fun i => { i with targets := net.targets ++ [Port.mk d p] }) s'.nets,
          devnets := updEntry d (setEntry p k)
            { s' with nets := updEntry k (fun i => { i with targets := net.targets ++ [Port.mk d p] }) s'.nets }.devnets }) := by
  simp [add_net_target, hk]

theorem add_net_target_frame (s : ConvState) (k : List Bit) (d : Nat) (p : String) :
    (add_net_target s k d p).devices = s.devices ∧
    (add_net_target s k d p).n = s.n ∧
    (add_net_target s k d p).bits = s.bits ∧
    (add_net_target s k d p).connectors = s.connectors := by
  unfold add_net_target
  by_cases hk : k = []
  · simp [hk]
  · simp only [hk, if_false]
    cases hg : lookupEntry k s.nets with
    | some i => simp [get_net, hg]
    | none => simp [get_net, hg]

theorem sourceOf_add_net_target (s : ConvState) (k k' : List Bit) (d : Nat) (p : String) :
    sourceOf (add_net_target s k d p) k' = sourceOf s k' := by
  unfold add_net_target sourceOf
  by_cases hk : k = []
  · simp [hk]
  · simp only [hk, if_false]
    cases hg : lookupEntry k s.nets with
    | some i =>
      simp only [get_net, hg]
      by_cases he : k' = k
      · subst he; rw [lookupEntry_updEntry_self, hg]; rfl
      · rw [lookupEntry_updEntry_ne _ _ he]
    | none =>
      simp only [get_net, hg]
      by_cases he : k' = k
      · subst he
        rw [lookupEntry_updEntry_self, lookupEntry_append_right _ hg]
        simp [lookupEntry, hg]
      · rw [lookupEntry_updEntry_ne _ _ he, lookupEntry_append]
        cases hl : lookupEntry k' s.nets with
        | some v => simp
        | none => simp [lookupEntry, Ne.symm he]

theorem targetsOf_add_net_target_self (s : ConvState) (k : List Bit) (d : Nat) (p : String)
    (hk : k ≠ []) :
    targetsOf (add_net_target s k d p) k = targetsOf s k ++ [Port.mk d p] := by
  unfold add_net_target targetsOf
  simp only [hk, if_false]
  cases hg : lookupEntry k s.nets with
  | some i =>
    simp only [get_net, hg]
    rw [lookupEntry_updEntry_self, hg]
    rfl
  | none =>
    simp only [get_net, hg]
    rw [lookupEntry_updEntry_self, lookupEntry_append_right _ hg]
    simp [lookupEntry, hg]

theorem targetsOf_add_net_target_ne (s : ConvState) {k k' : List Bit} (d : Nat) (p : String)
    (hne : k' ≠ k) :
    targetsOf (add_net_target s k d p) k' = targetsOf s k' := by
  unfold add_net_target targetsOf
  by_cases hk : k = []
  · simp [hk]
  · simp only [hk, if_false]
    cases hg : lookupEntry k s.nets with
    | some i => simp only [get_net, hg]; rw [lookupEntry_updEntry_ne _ _ hne]
    | none =>
      simp only [get_net, hg]
      rw [lookupEntry_updEntry_ne _ _ hne, lookupEntry_append]
      cases hl : lookupEntry k' s.nets with
      | some v => simp
      | none => simp [lookupEntry, Ne.symm hne]

theorem bits_fold_lookup_nmem (d : Nat) (p : String) (l : List (Nat × Bit))
    (bm : List (Bit × BitInfo)) (b : Bit) (hb : ∀ e ∈ l, e.2 ≠ b) :
    lookupEntry b (l.foldl (fun bm (e : Nat × Bit) => setEntry e.2 (BitInfo.mk d p e.1) bm) bm)
      = lookupEntry b bm := by
  induction l generalizing bm with
  | nil => rfl
  | cons e t ih =>
    simp only [List.foldl_cons]
    rw [ih _ (fun e' he' => hb e' (List.mem_cons_of_mem _ he'))]
    exact lookupEntry_setEntry_ne _ _ (fun hh => hb e (List.mem_cons_self _ _) hh.symm)

theorem bits_fold_lookup_mem (d : Nat) (p : String) (l : List (Nat × Bit))
    (bm : List (Bit × BitInfo)) (b : Bit) (hb : ∃ e ∈ l, e.2 = b) :
    ∃ j, lookupEntry b
        (l.foldl (fun bm (e : Nat × Bit) => setEntry e.2 (BitInfo.mk d p e.1) bm) bm)
      = some (BitInfo.mk d p j) ∧ (j, b) ∈ l := by
  induction l generalizing bm with
  | nil => simp at hb
  | cons e t ih =>
    simp only [List.foldl_cons]
    by_cases ht : ∃ e' ∈ t, e'.2 = b
    · obtain ⟨j, hj, hjm⟩ := ih _ ht
      exact ⟨j, hj, List.mem_cons_of_mem _ hjm⟩
    · push_neg at ht
      have heb : e.2 = b := by
        obtain ⟨e', he', he2⟩ := hb
        rcases List.mem_cons.mp he' with h | h
        · rw [← h]; exact he2
        · exact absurd he2 (ht e' h)
      refine ⟨e.1, ?_, ?_⟩
      · rw [bits_fold_lookup_nmem d p t _ b ht, heb, lookupEntry_setEntry_self]
      · rw [← heb]; exact List.mem_cons_self _ _

theorem add_net_source_error (s : ConvState) (k : List Bit) (d : Nat) (p : String)
    (prim : Bool) (q : Port) (hk : k ≠ []) (hs : sourceOf s k = some q) :
    add_net_source s k d p prim =
      .error ("Multiple sources driving net: " ++ jsShowOptName (netNameAt s k)) := by
  unfold sourceOf at hs
  cases hg : lookupEntry k s.nets with
  | none => rw [hg] at hs; simp at hs
  | some i =>
    rw [hg] at hs
    replace hs : i.source = some q := hs
    have : i.source.isSome := by rw [hs]; rfl
    unfold add_net_source
    simp only [hk, if_false, get_net, hg, this, if_true, netNameAt]
    rfl

theorem add_net_source_ok (s : ConvState) (k : List Bit) (d : Nat) (p : String)
    (prim : Bool) (hk : k ≠ []) (hs : sourceOf s k = none) :
    ∃ s', add_net_source s k d p prim = .ok s' ∧
      sourceOf s' k = some (Port.mk d p) ∧
      (∀ k', k' ≠ k → lookupEntry k' s'.nets = lookupEntry k' s.nets) ∧
      (∀ k', targetsOf s' k' = targetsOf s k') ∧
      s'.devices = s.devices ∧ s'.n = s.n ∧ s'.connectors = s.connectors ∧
      (prim = false → s'.bits = s.bits) ∧
      (prim = true → ∀ b ∈ k, ∃ j, lookupEntry b s'.bits = some (BitInfo.mk d p j) ∧
        k.get? j = some b) ∧
      (s'.nets.map Prod.fst = s.nets.map Prod.fst ∨
        s'.nets.map Prod.fst = s.nets.map Prod.fst ++ [k]) := by
  have hbits : ∀ (bm : List (Bit × BitInfo)), prim = true → ∀ b ∈ k,
      ∃ j, lookupEntry b
          (k.enum.foldl (fun bm (e : Nat × Bit) => setEntry e.2 (BitInfo.mk d p e.1) bm) bm)
        = some (BitInfo.mk d p j) ∧ k.get? j = some b := by
    intro bm _ b hb
    have : ∃ e ∈ k.enum, e.2 = b := by
      obtain ⟨j, hj⟩ := List.get?_of_mem hb
      exact ⟨(j, b), List.mem_enum_iff_get?.mpr hj, rfl⟩
    obtain ⟨j, hj, hjm⟩ := bits_fold_lookup_mem d p k.enum bm b this
    exact ⟨j, hj, List.mem_enum_iff_get?.mp hjm⟩
  unfold sourceOf at hs
  cases hg : lookupEntry k s.nets with
  | some i =>
    rw [hg] at hs
    replace hs : i.source = none := hs
    have hns : i.source.isSome = false := by rw [hs]; rfl
    refine ⟨{ s with
        nets := updEntry k (fun i => { i with source := some (Port.mk d p) }) s.nets,
        bits := if prim then
            (k.enum.foldl (fun bm (e : Nat × Bit) =>
              setEntry e.2 (BitInfo.mk d p e.1) bm) s.bits)
          else s.bits,
        devnets := updEntry d (setEntry p k) s.devnets }, ?_, ?_, ?_, ?_, ?_, ?_, ?_, ?_, ?_, ?_⟩
    · unfold add_net_source
      simp only [hk, if_false, get_net, hg, hns, Bool.false_eq_true, if_false]
      cases prim <;> simp
    · unfold sourceOf
      simp only
      rw [lookupEntry_updEntry_self, hg]
      rfl
    · intro k' hne
      simp only
      rw [lookupEntry_updEntry_ne _ _ hne]
    · intro k'
      unfold targetsOf
      simp only
      by_cases hne : k' = k
      · subst hne
        rw [lookupEntry_updEntry_self, hg]
        rfl
      · rw [lookupEntry_updEntry_ne _ _ hne]
    · rfl
    · rfl
    · rfl
    · intro hp; subst hp; rfl
    · intro hp; subst hp
      simp only [if_true]
      exact hbits s.bits rfl
    · left
      simp only
      exact updEntry_keys _ _ _
  | none =>
    refine ⟨{ s with
        nets := updEntry k (fun i => { i with source := some (Port.mk d p) })
          (s.nets ++ [(k, (NetInfo.mk none []
            ((lookupEntry k s.netnames).bind List.head?)))]),
        bits := if prim then
            (k.enum.foldl (fun bm (e : Nat × Bit) =>
              setEntry e.2 (BitInfo.mk d p e.1) bm) s.bits)
          else s.bits,
        devnets := updEntry d (setEntry p k) s.devnets }, ?_, ?_, ?_, ?_, ?_, ?_, ?_, ?_, ?_, ?_⟩
    · unfold add_net_source
      simp only [hk, if_false, get_net, hg]
      cases prim <;> simp
    · unfold sourceOf
      simp only
      rw [lookupEntry_updEntry_self, lookupEntry_append_right _ hg]
      simp [lookupEntry]
    · intro k' hne
      simp only
      rw [lookupEntry_updEntry_ne _ _ hne, lookupEntry_append]
      cases hl : lookupEntry k' s.nets with
      | some v => simp
      | none => simp [lookupEntry, Ne.symm hne]
    · intro k'
      unfold targetsOf
      simp only
      by_cases hne : k' = k
      · subst hne
        rw [lookupEntry_updEntry_self, lookupEntry_append_right _ hg, hg]
        simp [lookupEntry]
      · rw [lookupEntry_updEntry_ne _ _ hne, lookupEntry_append]
        cases hl : lookupEntry k' s.nets with
        | some v => simp
        | none => simp [lookupEntry, Ne.symm hne]
    · rfl
    · rfl
    · rfl
    · intro hp; subst hp; rfl
    · intro hp; subst hp
      simp only [if_true]
      exact hbits s.bits rfl
    · right
      simp only
      rw [updEntry_keys]
      simp

theorem mem_targetsOf_add_net_target (s : ConvState) (k k' : List Bit) (d : Nat)
    (p : String) (q : Port) (h : q ∈ targetsOf s k') :
    q ∈ targetsOf (add_net_target s k d p) k' := by
  by_cases hk : k = []
  · simpa [add_net_target, hk] using h
  · by_cases hne : k' = k
    · subst hne
      rw [targetsOf_add_net_target_self s k' d p hk]
      exact List.mem_append_left _ h
    · rw [targetsOf_add_net_target_ne s d p hne]
      exact h

theorem fold_add_net_target (dname : Nat) (f : Nat → List Bit) (g : Nat → String)
    (L : List Nat) (s : ConvState) :
    (∀ k', sourceOf (L.foldl (fun s i => add_net_target s (f i) dname (g i)) s) k'
        = sourceOf s k') ∧
    (∀ k' q, q ∈ targetsOf s k' →
      q ∈ targetsOf (L.foldl (fun s i => add_net_target s (f i) dname (g i)) s) k') ∧
    (∀ i ∈ L, f i ≠ [] →
      Port.mk dname (g i) ∈
        targetsOf (L.foldl (fun s i => add_net_target s (f i) dname (g i)) s) (f i)) ∧
    (L.foldl (fun s i => add_net_target s (f i) dname (g i)) s).bits = s.bits ∧
    (L.foldl (fun s i => add_net_target s (f i) dname (g i)) s).devices = s.devices ∧
    (L.foldl (fun s i => add_net_target s (f i) dname (g i)) s).n = s.n := by
  induction L generalizing s with
  | nil => exact ⟨fun _ => rfl, fun _ _ h => h, by simp, rfl, rfl, rfl⟩
  | cons i t ih =>
    simp only [List.foldl_cons]
    obtain ⟨ihsrc, ihmono, ihmem, ihbits, ihdev, ihn⟩ :=
      ih (add_net_target s (f i) dname (g i))
    refine ⟨?_, ?_, ?_, ?_, ?_, ?_⟩
    · intro k'
      rw [ihsrc, sourceOf_add_net_target]
    · intro k' q hq
      exact ihmono k' q (mem_targetsOf_add_net_target _ _ _ _ _ _ hq)
    · intro j hj hfj
      rcases List.mem_cons.mp hj with h | h
      · subst h
        refine ihmono _ _ ?_
        rw [targetsOf_add_net_target_self s (f j) dname (g j) hfj]
        exact List.mem_append_right _ (List.mem_singleton_self _)
      · exact ihmem j h hfj
    · rw [ihbits, (add_net_target_frame s (f i) dname (g i)).2.2.1]
    · rw [ihdev, (add_net_target_frame s (f i) dname (g i)).1]
    · rw [ihn, (add_net_target_frame s (f i) dname (g i)).2.1]

/-! ## Claim theorems -/

/-- C10: connecting an empty (zero-width) bit-vector as a net source or
net target is a no-op: `add_net_source` succeeds and `add_net_target`
returns with the state unchanged — no net, no provenance entry, no
device-port-net index entry, no connector, and no multi-driver error. -/
theorem c10_empty_vector_noop (s : ConvState) (d : Nat) (p : String) (prim : Bool) :
    add_net_source s [] d p prim = .ok s ∧ add_net_target s [] d p = s := by
  constructor <;> simp [add_net_source, add_net_target]

/-- C2: each net has at most one source.  Registering a source on a
non-empty bit-vector net that already has one is a fatal error whose
message carries the net's display name (JS prints `undefined` for a
nameless net), and a successful registration proves the net had no
source before and exactly the new source afterwards. -/
theorem c2_single_source (s : ConvState) (k : List Bit) (d : Nat) (p : String)
    (prim : Bool) (hk : k ≠ []) :
    (∀ q, sourceOf s k = some q →
      add_net_source s k d p prim =
        .error ("Multiple sources driving net: " ++ jsShowOptName (netNameAt s k))) ∧
    (∀ s', add_net_source s k d p prim = .ok s' →
      sourceOf s k = none ∧ sourceOf s' k = some (Port.mk d p)) := by
  constructor
  · intro q hq
    exact add_net_source_error s k d p prim q hk hq
  · intro s' hok
    cases hsk : sourceOf s k with
    | some q =>
      rw [add_net_source_error s k d p prim q hk hsk] at hok
      exact absurd hok (by simp)
    | none =>
      obtain ⟨s'', h1, h2, -⟩ := add_net_source_ok s k d p prim hk hsk
      rw [h1] at hok
      obtain rfl : s'' = s' := by injection hok
      exact ⟨rfl, h2⟩

theorem mem_keys_of_lookupEntry {α β : Type} [DecidableEq α] {k : α} {l : List (α × β)}
    {v : β} (h : lookupEntry k l = some v) : k ∈ l.map Prod.fst := by
  induction l with
  | nil => simp [lookupEntry] at h
  | cons hd tl ih =>
    obtain ⟨a, b⟩ := hd
    by_cases ha : a = k
    · subst ha; exact List.mem_cons_self _ _
    · simp only [lookupEntry, ha, if_false] at h
      exact List.mem_cons_of_mem _ (ih h)

theorem lookupEntry_none_of_lt {β : Type} (l : List (Nat × β)) (n : Nat)
    (h : ∀ e ∈ l, e.1 < n) : lookupEntry n l = none := by
  induction l with
  | nil => rfl
  | cons hd tl ih =>
    have hlt := h hd (List.mem_cons_self _ _)
    have : ¬(hd.1 = n) := by omega
    obtain ⟨a, b⟩ := hd
    simp only [lookupEntry, this, if_false]
    exact ih (fun e he => h e (List.mem_cons_of_mem _ he))

theorem lookupEntry_append_singleton_ne {β : Type} {d n : Nat} (l : List (Nat × β)) (v : β)
    (h : d ≠ n) : lookupEntry d (l ++ [(n, v)]) = lookupEntry d l := by
  rw [lookupEntry_append]
  cases hl : lookupEntry d l with
  | some w => rfl
  | none => simp [lookupEntry, Ne.symm h]

theorem withPropagation_fields (opts : Option Nat) (dev : Device) :
    (withPropagation opts dev).type = dev.type ∧
    (withPropagation opts dev).constant = dev.constant ∧
    (withPropagation opts dev).extend = dev.extend ∧
    (withPropagation opts dev).groups = dev.groups := by
  cases opts <;> exact ⟨rfl, rfl, rfl, rfl⟩

/-- The device record the constants pass creates (before the
`propagation` option is applied). -/
def constantDevice (c : String) : Device :=
  { type := "Constant", constant := some c }

theorem const_step_active_eq (opts : Option Nat) (s : ConvState) (k : List Bit)
    (net : NetInfo) (hg : lookupEntry k s.nets = some net)
    (hns : net.source.isSome = false) (hall : k.all constbit = true) :
    const_step opts s k = add_net_source
      { s with
        n := s.n + 1,
        devnets := s.devnets ++ [(s.n, [])],
        devices := s.devices ++ [(s.n, withPropagation opts
          (constantDevice (bitsToConstStr k)))] } k s.n "out" false := by
  simp [const_step, hg, hns, hall, add_device, constantDevice]

/-- Combined effect description of one constants-pass iteration: it
always succeeds, never shrinks the device counter, touches no other
net's record, and preserves lookups of existing devices. -/
theorem const_step_general (opts : Option Nat) (s : ConvState) (k : List Bit) :
    ∃ s₂, const_step opts s k = .ok s₂ ∧
      s.n ≤ s₂.n ∧
      (∀ k', k' ≠ k → lookupEntry k' s₂.nets = lookupEntry k' s.nets) ∧
      (∀ d, d < s.n → lookupEntry d s₂.devices = lookupEntry d s.devices) ∧
      ((∀ e ∈ s.devices, e.1 < s.n) → ∀ e ∈ s₂.devices, e.1 < s₂.n) := by
  cases hg : lookupEntry k s.nets with
  | none =>
    exact ⟨s, by simp [const_step, hg], le_refl _, fun _ _ => rfl, fun _ _ => rfl, fun h => h⟩
  | some net =>
    by_cases hsome : net.source.isSome
    · exact ⟨s, by simp [const_step, hg, hsome], le_refl _, fun _ _ => rfl,
        fun _ _ => rfl, fun h => h⟩
    · by_cases hall : (k.all constbit)
      · rw [Bool.not_eq_true] at hsome
        have hred := const_step_active_eq opts s k net hg hsome hall
        by_cases hk : k = []
        · subst hk
          refine ⟨{ s with
              n := s.n + 1,
              devnets := s.devnets ++ [(s.n, [])],
              devices := s.devices ++ [(s.n, withPropagation opts
                (constantDevice (bitsToConstStr [])))] },
            by rw [hred]; simp [add_net_source], Nat.le_succ _,
            fun _ _ => rfl, ?_, ?_⟩
          · intro d hd
            exact lookupEntry_append_singleton_ne _ _ (by omega)
          · intro h e he
            rcases List.mem_append.mp he with h1 | h1
            · exact Nat.lt_succ_of_lt (h e h1)
            · rw [List.mem_singleton] at h1
              subst h1
              exact Nat.lt_succ_self _
        · have hsrc₁ : sourceOf
              { s with
                n := s.n + 1,
                devnets := s.devnets ++ [(s.n, [])],
                devices := s.devices ++ [(s.n, withPropagation opts
                  (constantDevice (bitsToConstStr k)))] } k = none := by
            unfold sourceOf
            show (lookupEntry k s.nets).bind NetInfo.source = none
            rw [hg]
            show net.source = none
            exact Option.not_isSome_iff_eq_none.mp (by rw [hsome]; simp)
          obtain ⟨s₂, hok, -, hnets, -, hdevs, hn, -, -, -, -⟩ :=
            add_net_source_ok _ k s.n "out" false hk hsrc₁
          refine ⟨s₂, by rw [hred, hok], by rw [hn]; exact Nat.le_succ _, ?_, ?_, ?_⟩
          · intro k' hne
            rw [hnets k' hne]
          · intro d hd
            rw [hdevs]
            exact lookupEntry_append_singleton_ne _ _ (by omega)
          · intro h e he
            rw [hdevs] at he
            rw [hn]
            show e.1 < s.n + 1
            rcases List.mem_append.mp he with h1 | h1
            · exact Nat.lt_succ_of_lt (h e h1)
            · rw [List.mem_singleton] at h1
              subst h1
              exact Nat.lt_succ_self _
      · exact ⟨s, by simp [const_step, hg, hsome, hall], le_refl _, fun _ _ => rfl,
          fun _ _ => rfl, fun h => h⟩

/-- The establishing iteration of the constants pass: on an undriven,
all-constant, non-empty net it creates a fresh `Constant` device holding
the reversed bit string and makes it the net's source. -/
theorem const_step_establish (opts : Option Nat) (s : ConvState) (k : List Bit)
    (net : NetInfo) (hg : lookupEntry k s.nets = some net) (hns : net.source = none)
    (hall : k.all constbit = true) (hk : k ≠ [])
    (hkeys : ∀ e ∈ s.devices, e.1 < s.n) :
    ∃ s₂, const_step opts s k = .ok s₂ ∧
      sourceOf s₂ k = some (Port.mk s.n "out") ∧
      s.n < s₂.n ∧
      (∃ dev, lookupEntry s.n s₂.devices = some dev ∧ dev.type = "Constant" ∧
        dev.constant = some (bitsToConstStr k)) := by
  have hred := const_step_active_eq opts s k net hg (by rw [hns]; rfl) hall
  have hsrc₁ : sourceOf
      { s with
        n := s.n + 1,
        devnets := s.devnets ++ [(s.n, [])],
        devices := s.devices ++ [(s.n, withPropagation opts
          (constantDevice (bitsToConstStr k)))] } k = none := by
    unfold sourceOf
    show (lookupEntry k s.nets).bind NetInfo.source = none
    rw [hg]
    show net.source = none
    exact hns
  obtain ⟨s₂, hok, hsrc₂, -, -, hdevs, hn, -, -, -, -⟩ :=
    add_net_source_ok _ k s.n "out" false hk hsrc₁
  refine ⟨s₂, by rw [hred, hok], hsrc₂, by rw [hn]; exact Nat.lt_succ_self _, ?_⟩
  refine ⟨withPropagation opts (constantDevice (bitsToConstStr k)),
    ?_, (withPropagation_fields _ _).1, (withPropagation_fields _ _).2.1⟩
  rw [hdevs]
  show lookupEntry s.n (s.devices ++ [(s.n, _)]) = _
  rw [lookupEntry_append_right _ (lookupEntry_none_of_lt _ _ hkeys)]
  simp [lookupEntry]

theorem dropLast_flatten_getLastD {α : Type} (l : List (List α)) (h : l ≠ []) :
    l.dropLast.flatten ++ l.getLastD [] = l.flatten := by
  conv_rhs => rw [← List.dropLast_append_getLast h]
  rw [List.flatten_append]
  simp [List.getLastD_eq_getLast?, List.getLast?_eq_getLast _ h]

theorem computeGroupsStep_facts (bm : List (Bit × BitInfo)) (acc : List (List Bit) × BInfo)
    (bit : Bit) (h : acc.1 ≠ []) :
    (computeGroupsStep bm acc bit).1 ≠ [] ∧
    (computeGroupsStep bm acc bit).1.flatten = acc.1.flatten ++ [bit] ∧
    ((∀ g ∈ acc.1.dropLast, g ≠ []) →
      ∀ g ∈ (computeGroupsStep bm acc bit).1.dropLast, g ≠ []) ∧
    ((computeGroupsStep bm acc bit).1.getLastD []) ≠ [] := by
  unfold computeGroupsStep
  by_cases hcond : ((acc.1.getLastD []).length > 0 && !(sameRun acc.2 (binfoOf bm bit)))
  · have hlast : acc.1.getLastD [] ≠ [] := by
      rw [Bool.and_eq_true] at hcond
      have := hcond.1
      simp only [gt_iff_lt, decide_eq_true_eq] at this
      exact List.ne_nil_of_length_pos this
    have hres : ((if (acc.1.getLastD []).length > 0 && !(sameRun acc.2 (binfoOf bm bit))
          then acc.1 ++ [[]] else acc.1).dropLast ++
        [(if (acc.1.getLastD []).length > 0 && !(sameRun acc.2 (binfoOf bm bit))
          then acc.1 ++ [[]] else acc.1).getLastD [] ++ [bit]]) = acc.1 ++ [[bit]] := by
      rw [if_pos hcond, List.dropLast_concat, List.getLastD_concat]
      rfl
    simp only
    rw [hres]
    refine ⟨by simp, by rw [List.flatten_concat], ?_, by rw [List.getLastD_concat]; simp⟩
    intro hall g hg
    rw [List.dropLast_concat] at hg
    conv at hg => rw [← List.dropLast_append_getLast h]
    rcases List.mem_append.mp hg with h1 | h1
    · exact hall g h1
    · rw [List.mem_singleton] at h1
      subst h1
      rw [List.getLastD_eq_getLast?, List.getLast?_eq_getLast _ h] at hlast
      exact hlast
  · have hres : ((if (acc.1.getLastD []).length > 0 && !(sameRun acc.2 (binfoOf bm bit))
          then acc.1 ++ [[]] else acc.1).dropLast ++
        [(if (acc.1.getLastD []).length > 0 && !(sameRun acc.2 (binfoOf bm bit))
          then acc.1 ++ [[]] else acc.1).getLastD [] ++ [bit]]) =
        acc.1.dropLast ++ [acc.1.getLastD [] ++ [bit]] := by
      rw [if_neg hcond]
    simp only
    rw [hres]
    refine ⟨by simp, ?_, ?_, by rw [List.getLastD_concat]; simp⟩
    · rw [List.flatten_concat, ← List.append_assoc, dropLast_flatten_getLastD _ h]
    · intro hall g hg
      rw [List.dropLast_concat] at hg
      exact hall g hg

theorem computeGroups_fold_facts (bm : List (Bit × BitInfo)) :
    ∀ (l : List Bit) (acc : List (List Bit) × BInfo),
    acc.1 ≠ [] → (∀ g ∈ acc.1.dropLast, g ≠ []) →
    (l.foldl (computeGroupsStep bm) acc).1 ≠ [] ∧
    (l.foldl (computeGroupsStep bm) acc).1.flatten = acc.1.flatten ++ l ∧
    (∀ g ∈ (l.foldl (computeGroupsStep bm) acc).1.dropLast, g ≠ []) ∧
    ((acc.1.getLastD [] ≠ [] ∨ l ≠ []) →
      ((l.foldl (computeGroupsStep bm) acc).1.getLastD []) ≠ []) := by
  intro l
  induction l with
  | nil =>
    intro acc hne hall
    refine ⟨hne, by simp, hall, ?_⟩
    intro hd
    rcases hd with hd | hd
    · exact hd
    · exact absurd rfl hd
  | cons b t ih =>
    intro acc hne hall
    obtain ⟨sne, sflat, sall, slast⟩ := computeGroupsStep_facts bm acc b hne
    obtain ⟨fne, fflat, fall, flast⟩ := ih (computeGroupsStep bm acc b) sne (sall hall)
    simp only [List.foldl_cons]
    refine ⟨fne, ?_, fall, fun _ => flast (Or.inl slast)⟩
    rw [fflat, sflat, List.append_assoc]
    rfl

theorem computeGroups_flatten (bm : List (Bit × BitInfo)) (nbits : List Bit) :
    (computeGroups bm nbits).flatten = nbits := by
  have := computeGroups_fold_facts bm nbits ([[]], BInfo.undefBit) (by simp) (by simp)
  unfold computeGroups
  rw [this.2.1]
  simp

theorem computeGroups_all_ne (bm : List (Bit × BitInfo)) (nbits : List Bit)
    (h2 : 2 ≤ (computeGroups bm nbits).length) :
    ∀ g ∈ computeGroups bm nbits, g ≠ [] := by
  have hnb : nbits ≠ [] := by
    intro h
    subst h
    simp [computeGroups] at h2
  have hf := computeGroups_fold_facts bm nbits ([[]], BInfo.undefBit) (by simp) (by simp)
  have hne : (computeGroups bm nbits) ≠ [] := hf.1
  have hall : ∀ g ∈ (computeGroups bm nbits).dropLast, g ≠ [] := hf.2.2.1
  have hlast : (computeGroups bm nbits).getLastD [] ≠ [] := hf.2.2.2 (Or.inr hnb)
  intro g hg
  conv at hg => rw [← List.dropLast_append_getLast hne]
  rcases List.mem_append.mp hg with h1 | h1
  · exact hall g h1
  · rw [List.mem_singleton] at h1
    subst h1
    rw [List.getLastD_eq_getLast?, List.getLast?_eq_getLast _ hne] at hlast
    exact hlast

theorem computeGroups_len_facts (bm : List (Bit × BitInfo)) (nbits : List Bit)
    (h2 : 2 ≤ (computeGroups bm nbits).length) :
    1 ≤ ((computeGroups bm nbits).getLastD []).length ∧
    ((computeGroups bm nbits).getLastD []).length < nbits.length := by
  have hnb : nbits ≠ [] := by
    intro h
    subst h
    simp [computeGroups] at h2
  have hf := computeGroups_fold_facts bm nbits ([[]], BInfo.undefBit) (by simp) (by simp)
  have hne : (computeGroups bm nbits) ≠ [] := hf.1
  have hall := computeGroups_all_ne bm nbits h2
  have hlast : (computeGroups bm nbits).getLastD [] ≠ [] := hf.2.2.2 (Or.inr hnb)
  have hZ : 1 ≤ ((computeGroups bm nbits).getLastD []).length :=
    Nat.one_le_iff_ne_zero.mpr (fun h => hlast (List.eq_nil_of_length_eq_zero h))
  refine ⟨hZ, ?_⟩
  have hsum : ((computeGroups bm nbits).dropLast.flatten).length +
      ((computeGroups bm nbits).getLastD []).length = nbits.length := by
    rw [← List.length_append, dropLast_flatten_getLastD _ hne, computeGroups_flatten]
  have hdl : (computeGroups bm nbits).dropLast ≠ [] := by
    intro h
    have := congrArg List.length (List.dropLast_append_getLast hne)
    rw [h] at this
    simp at this
    omega
  obtain ⟨g₀, rest, hcons⟩ := List.exists_cons_of_ne_nil hdl
  have hg₀ : g₀ ≠ [] := by
    refine hall g₀ ?_
    conv => rw [← List.dropLast_append_getLast hne]
    exact List.mem_append_left _ (hcons ▸ List.mem_cons_self _ _)
  have : 1 ≤ ((computeGroups bm nbits).dropLast.flatten).length := by
    rw [hcons, List.flatten_cons, List.length_append]
    have := List.length_pos.mpr hg₀
    omega
  omega

theorem lookup_nets_add_net_target_self (s : ConvState) (k : List Bit) (d : Nat)
    (p : String) (hk : k ≠ []) :
    (lookupEntry k (add_net_target s k d p).nets).isSome = true := by
  unfold add_net_target
  simp only [hk, if_false]
  cases hg : lookupEntry k s.nets with
  | some i =>
    simp only [get_net, hg]
    rw [lookupEntry_updEntry_self, hg]
    rfl
  | none =>
    simp only [get_net, hg]
    rw [lookupEntry_updEntry_self, lookupEntry_append_right _ hg]
    simp [lookupEntry]

theorem fold_add_net_target_enum (dname : Nat) (G : List (Nat × List Bit)) (s : ConvState) :
    (∀ k', sourceOf (G.foldl (fun s (e : Nat × List Bit) =>
        add_net_target s e.2 dname ("in" ++ toString e.1)) s) k' = sourceOf s k') ∧
    (∀ k' q, q ∈ targetsOf s k' →
      q ∈ targetsOf (G.foldl (fun s (e : Nat × List Bit) =>
        add_net_target s e.2 dname ("in" ++ toString e.1)) s) k') ∧
    (∀ e ∈ G, e.2 ≠ [] →
      Port.mk dname ("in" ++ toString e.1) ∈
        targetsOf (G.foldl (fun s (e : Nat × List Bit) =>
          add_net_target s e.2 dname ("in" ++ toString e.1)) s) e.2) ∧
    (G.foldl (fun s (e : Nat × List Bit) =>
      add_net_target s e.2 dname ("in" ++ toString e.1)) s).devices = s.devices ∧
    (G.foldl (fun s (e : Nat × List Bit) =>
      add_net_target s e.2 dname ("in" ++ toString e.1)) s).n = s.n := by
  induction G generalizing s with
  | nil => exact ⟨fun _ => rfl, fun _ _ h => h, by simp, rfl, rfl⟩
  | cons e t ih =>
    simp only [List.foldl_cons]
    obtain ⟨ihsrc, ihmono, ihmem, ihdev, ihn⟩ :=
      ih (add_net_target s e.2 dname ("in" ++ toString e.1))
    refine ⟨?_, ?_, ?_, ?_, ?_⟩
    · intro k'
      rw [ihsrc, sourceOf_add_net_target]
    · intro k' q hq
      exact ihmono k' q (mem_targetsOf_add_net_target _ _ _ _ _ _ hq)
    · intro e' he' hne'
      rcases List.mem_cons.mp he' with h | h
      · subst h
        refine ihmono _ _ ?_
        rw [targetsOf_add_net_target_self s e'.2 dname _ hne']
        exact List.mem_append_right _ (List.mem_singleton_self _)
      · exact ihmem e' h hne'
    · rw [ihdev, (add_net_target_frame s e.2 dname _).1]
    · rw [ihn, (add_net_target_frame s e.2 dname _).2.1]

/-- If the vector is already driven, `add_busgroup` is a no-op. -/
theorem add_busgroup_skip (opts : Option Nat) (s : ConvState) (nbits : List Bit)
    (groups : List (List Bit)) (i : NetInfo) (hg : lookupEntry nbits s.nets = some i)
    (hi : i.source.isSome = true) :
    add_busgroup opts s nbits groups = .ok s := by
  simp [add_busgroup, get_net, hg, hi]

/-- `add_busgroup` on an undriven existing net: inserts a `BusGroup`
device (id = the current counter) whose `groups` are the run widths,
sources the whole vector from its `out` port, and targets each non-empty
run on `in<k>`; existing devices, other nets' sources and all recorded
targets are preserved. -/
theorem add_busgroup_establish (opts : Option Nat) (s : ConvState) (nbits : List Bit)
    (groups : List (List Bit)) (i : NetInfo) (hg : lookupEntry nbits s.nets = some i)
    (hi : i.source = none) (hne : nbits ≠ [])
    (hkeys : ∀ e ∈ s.devices, e.1 < s.n) :
    ∃ s', add_busgroup opts s nbits groups = .ok s' ∧
      (∃ dev, lookupEntry s.n s'.devices = some dev ∧ dev.type = "BusGroup" ∧
        dev.groups = some (groups.map List.length)) ∧
      sourceOf s' nbits = some (Port.mk s.n "out") ∧
      (∀ gn g, groups.get? gn = some g → g ≠ [] →
        Port.mk s.n ("in" ++ toString gn) ∈ targetsOf s' g) ∧
      (∀ d, d < s.n → lookupEntry d s'.devices = lookupEntry d s.devices) ∧
      (∀ k', k' ≠ nbits → sourceOf s' k' = sourceOf s k') ∧
      (∀ k' q, q ∈ targetsOf s k' → q ∈ targetsOf s' k') := by
  have hsrc₁ : sourceOf
      { s with
        n := s.n + 1,
        devnets := s.devnets ++ [(s.n, [])],
        devices := s.devices ++ [(s.n, withPropagation opts
          { type := "BusGroup", groups := some (groups.map List.length) })] } nbits = none := by
    unfold sourceOf
    show (lookupEntry nbits s.nets).bind NetInfo.source = none
    rw [hg]
    show i.source = none
    exact hi
  obtain ⟨s₂, hok, hsrc₂, hnetsne₂, htgall₂, hdevs₂, hn₂, -, -, -, -⟩ :=
    add_net_source_ok _ nbits s.n "out" false hne hsrc₁
  have hbg : add_busgroup opts s nbits groups =
      .ok ((groups.enum).foldl (fun st (e : Nat × List Bit) =>
        add_net_target st e.2 s.n ("in" ++ toString e.1)) s₂) := by
    simp only [add_busgroup, get_net, hg, hi, Option.isSome_none, Bool.false_eq_true,
      if_false, add_device]
    rw [hok]
  obtain ⟨fsrc, fmono, fmem, fdev, fn⟩ :=
    fold_add_net_target_enum s.n groups.enum s₂
  refine ⟨_, hbg, ?_, ?_, ?_, ?_, ?_, ?_⟩
  · refine ⟨withPropagation opts
      { type := "BusGroup", groups := some (groups.map List.length) }, ?_, ?_, ?_⟩
    · rw [fdev, hdevs₂]
      show lookupEntry s.n (s.devices ++ [(s.n, _)]) = _
      rw [lookupEntry_append_right _ (lookupEntry_none_of_lt _ _ hkeys)]
      simp [lookupEntry]
    · exact (withPropagation_fields _ _).1
    · exact (withPropagation_fields _ _).2.2.2
  · rw [fsrc]
    exact hsrc₂
  · intro gn g hget hgne
    exact fmem (gn, g) (List.mem_enum_iff_get?.mpr hget) hgne
  · intro d hd
    rw [fdev, hdevs₂]
    show lookupEntry d (s.devices ++ [(s.n, _)]) = _
    exact lookupEntry_append_singleton_ne _ _ (by omega)
  · intro k' hk'
    rw [fsrc]
    unfold sourceOf
    rw [hnetsne₂ k' hk']
  · intro k' q hq
    refine fmono k' q ?_
    rw [htgall₂ k']
    exact hq

theorem zeroExtendDev_fields (opts : Option Nat) (i o : Nat) :
    (withPropagation opts
      { type := "ZeroExtend", extend := some (ExtendInfo.mk i o) } : Device).type
        = "ZeroExtend" ∧
    (withPropagation opts
      { type := "ZeroExtend", extend := some (ExtendInfo.mk i o) } : Device).extend
        = some (ExtendInfo.mk i o) := by
  cases opts <;> exact ⟨rfl, rfl⟩

/-- C3 (amended): in the grouping phase, an undriven net whose vector
splits into at least two runs with an all-`'0'` final run gets a
`ZeroExtend {input: N-Z, output: N}` device sourcing the whole vector
and targeting the prefix; when more than two runs remain **and the
prefix is not already driven**, the prefix is additionally bus-grouped
from the remaining runs. -/
theorem c3_group_step_zero_extend (opts : Option Nat) (s : ConvState) (nbits : List Bit)
    (net : NetInfo) (gs : List (List Bit))
    (hg : lookupEntry nbits s.nets = some net)
    (hns : net.source = none)
    (hgs : computeGroups s.bits nbits = gs)
    (hlen : 2 ≤ gs.length)
    (hzero : ∀ b ∈ gs.getLastD [], b = Bit.const '0')
    (hkeys : ∀ e ∈ s.devices, e.1 < s.n) :
    ∃ s', group_step opts s nbits = .ok s' ∧
      (∃ dev, lookupEntry s.n s'.devices = some dev ∧ dev.type = "ZeroExtend" ∧
        dev.extend = some (ExtendInfo.mk
          (nbits.length - (gs.getLastD []).length) nbits.length)) ∧
      sourceOf s' nbits = some (Port.mk s.n "out") ∧
      Port.mk s.n "in" ∈
        targetsOf s' (nbits.take (nbits.length - (gs.getLastD []).length)) ∧
      (2 < gs.length →
        sourceOf s (nbits.take (nbits.length - (gs.getLastD []).length)) = none →
        (∃ dev, lookupEntry (s.n + 1) s'.devices = some dev ∧ dev.type = "BusGroup" ∧
          dev.groups = some ((gs.dropLast).map List.length)) ∧
        sourceOf s' (nbits.take (nbits.length - (gs.getLastD []).length)) =
          some (Port.mk (s.n + 1) "out") ∧
        (∀ gn g, (gs.dropLast).get? gn = some g →
          Port.mk (s.n + 1) ("in" ++ toString gn) ∈ targetsOf s' g)) := by
  have h2' : 2 ≤ (computeGroups s.bits nbits).length := by rw [hgs]; exact hlen
  have hZfacts := computeGroups_len_facts s.bits nbits h2'
  rw [hgs] at hZfacts
  have hallne := computeGroups_all_ne s.bits nbits h2'
  rw [hgs] at hallne
  have hZ1 : 1 ≤ (gs.getLastD []).length := hZfacts.1
  have hZN : (gs.getLastD []).length < nbits.length := hZfacts.2
  have hnne : nbits ≠ [] := by
    apply List.ne_nil_of_length_pos
    omega
  have hzlen : (nbits.take (nbits.length - (gs.getLastD []).length)).length =
      nbits.length - (gs.getLastD []).length := by
    rw [List.length_take]
    omega
  have hznne : nbits.take (nbits.length - (gs.getLastD []).length) ≠ [] := by
    apply List.ne_nil_of_length_pos
    omega
  have hzneq : nbits.take (nbits.length - (gs.getLastD []).length) ≠ nbits := by
    intro h
    have := congrArg List.length h
    rw [hzlen] at this
    omega
  have hns' : net.source.isSome = false := by rw [hns]; rfl
  have hlen1 : ¬(gs.length = 1) := by omega
  have hzall : (gs.getLastD []).all jsEqChar0 = true := by
    rw [List.all_eq_true]
    intro b hb
    rw [hzero b hb]
    rfl
  have hsrc₁ : sourceOf
      { s with
        n := s.n + 1,
        devnets := s.devnets ++ [(s.n, [])],
        devices := s.devices ++ [(s.n, withPropagation opts
          { type := "ZeroExtend", extend := some (ExtendInfo.mk
            (nbits.length - (gs.getLastD []).length) nbits.length) })] } nbits = none := by
    unfold sourceOf
    show (lookupEntry nbits s.nets).bind NetInfo.source = none
    rw [hg]
    show net.source = none
    exact hns
  obtain ⟨s₂, hok, hsrc₂, hnetsne₂, htgall₂, hdevs₂, hn₂, -, -, -, -⟩ :=
    add_net_source_ok _ nbits s.n "out" false hnne hsrc₁
  have hred : group_step opts s nbits =
      (if gs.length > 2
        then add_busgroup opts
          (add_net_target s₂ (nbits.take (nbits.length - (gs.getLastD []).length)) s.n "in")
          (nbits.take (nbits.length - (gs.getLastD []).length)) gs.dropLast
        else .ok (add_net_target s₂
          (nbits.take (nbits.length - (gs.getLastD []).length)) s.n "in")) := by
    simp only [group_step, hg, hns', Bool.false_eq_true, if_false, hgs, hlen1, hzall,
      if_true, add_device]
    rw [hok]
  -- facts at the state after the zero-extend insertion and wiring
  have hdev₃ : (add_net_target s₂
      (nbits.take (nbits.length - (gs.getLastD []).length)) s.n "in").devices =
      s.devices ++ [(s.n, withPropagation opts
        { type := "ZeroExtend", extend := some (ExtendInfo.mk
          (nbits.length - (gs.getLastD []).length) nbits.length) })] := by
    rw [(add_net_target_frame _ _ _ _).1, hdevs₂]
  have hn₃ : (add_net_target s₂
      (nbits.take (nbits.length - (gs.getLastD []).length)) s.n "in").n = s.n + 1 := by
    rw [(add_net_target_frame _ _ _ _).2.1, hn₂]
  have hdevlook₃ : lookupEntry s.n (add_net_target s₂
      (nbits.take (nbits.length - (gs.getLastD []).length)) s.n "in").devices =
      some (withPropagation opts
        { type := "ZeroExtend", extend := some (ExtendInfo.mk
          (nbits.length - (gs.getLastD []).length) nbits.length) }) := by
    rw [hdev₃, lookupEntry_append_right _ (lookupEntry_none_of_lt _ _ hkeys)]
    simp [lookupEntry]
  have hsrcnb₃ : sourceOf (add_net_target s₂
      (nbits.take (nbits.length - (gs.getLastD []).length)) s.n "in") nbits =
      some (Port.mk s.n "out") := by
    rw [sourceOf_add_net_target]
    exact hsrc₂
  have htg₃ : Port.mk s.n "in" ∈ targetsOf (add_net_target s₂
      (nbits.take (nbits.length - (gs.getLastD []).length)) s.n "in")
      (nbits.take (nbits.length - (gs.getLastD []).length)) := by
    rw [targetsOf_add_net_target_self _ _ _ _ hznne]
    exact List.mem_append_right _ (List.mem_singleton_self _)
  have hkeys₃ : ∀ e ∈ (add_net_target s₂
      (nbits.take (nbits.length - (gs.getLastD []).length)) s.n "in").devices,
      e.1 < (add_net_target s₂
        (nbits.take (nbits.length - (gs.getLastD []).length)) s.n "in").n := by
    rw [hdev₃, hn₃]
    intro e he
    rcases List.mem_append.mp he with h1 | h1
    · exact Nat.lt_succ_of_lt (hkeys e h1)
    · rw [List.mem_singleton] at h1
      subst h1
      exact Nat.lt_succ_self _
  have hsrcz₃ : sourceOf (add_net_target s₂
      (nbits.take (nbits.length - (gs.getLastD []).length)) s.n "in")
      (nbits.take (nbits.length - (gs.getLastD []).length)) =
      sourceOf s (nbits.take (nbits.length - (gs.getLastD []).length)) := by
    rw [sourceOf_add_net_target]
    unfold sourceOf
    rw [hnetsne₂ _ hzneq]
  by_cases hgt : gs.length > 2
  · cases hsz : sourceOf s (nbits.take (nbits.length - (gs.getLastD []).length)) with
    | some q =>
      -- the prefix is already driven: add_busgroup is a no-op
      have hsz₃ := hsrcz₃.trans hsz
      obtain ⟨i₃, hgi₃, hii₃⟩ : ∃ i₃, lookupEntry
          (nbits.take (nbits.length - (gs.getLastD []).length))
          (add_net_target s₂
            (nbits.take (nbits.length - (gs.getLastD []).length)) s.n "in").nets = some i₃ ∧
          i₃.source.isSome = true := by
        unfold sourceOf at hsz₃
        cases hl : lookupEntry (nbits.take (nbits.length - (gs.getLastD []).length))
            (add_net_target s₂
              (nbits.take (nbits.length - (gs.getLastD []).length)) s.n "in").nets with
        | none => rw [hl] at hsz₃; simp at hsz₃
        | some i₃ =>
          rw [hl] at hsz₃
          refine ⟨i₃, rfl, ?_⟩
          replace hsz₃ : i₃.source = some q := hsz₃
          rw [hsz₃]
          rfl
      refine ⟨_, ?_, ⟨_, hdevlook₃,
          (zeroExtendDev_fields opts _ nbits.length).1,
          (zeroExtendDev_fields opts _ nbits.length).2⟩, hsrcnb₃, htg₃, ?_⟩
      · rw [hred, if_pos hgt, add_busgroup_skip opts _ _ _ i₃ hgi₃ hii₃]
      · intro _ hnone
        simp at hnone
    | none =>
      have hsz₃ := hsrcz₃.trans hsz
      obtain ⟨i₃, hgi₃, hii₃⟩ : ∃ i₃, lookupEntry
          (nbits.take (nbits.length - (gs.getLastD []).length))
          (add_net_target s₂
            (nbits.take (nbits.length - (gs.getLastD []).length)) s.n "in").nets = some i₃ ∧
          i₃.source = none := by
        have := lookup_nets_add_net_target_self s₂
          (nbits.take (nbits.length - (gs.getLastD []).length)) s.n "in" hznne
        obtain ⟨i₃, hi₃⟩ := Option.isSome_iff_exists.mp this
        refine ⟨i₃, hi₃, ?_⟩
        unfold sourceOf at hsz₃
        rw [hi₃] at hsz₃
        exact hsz₃
      obtain ⟨s', hbg, ⟨dev, hdevlk, hdevty, hdevgr⟩, hsrcz', htgruns, hdevpres,
          hsrcpres, htgpres⟩ :=
        add_busgroup_establish opts _ _ gs.dropLast i₃ hgi₃ hii₃ hznne hkeys₃
      refine ⟨s', ?_, ⟨_, ?_, (zeroExtendDev_fields opts _ nbits.length).1,
          (zeroExtendDev_fields opts _ nbits.length).2⟩, ?_, ?_, ?_⟩
      · rw [hred, if_pos hgt, hbg]
      · rw [hdevpres s.n (by rw [hn₃]; omega)]
        exact hdevlook₃
      · rw [hsrcpres nbits (Ne.symm hzneq)]
        exact hsrcnb₃
      · exact htgpres _ _ htg₃
      · intro _ _
        refine ⟨⟨dev, ?_, hdevty, hdevgr⟩, ?_, ?_⟩
        · rw [← hn₃]
          exact hdevlk
        · rw [← hn₃]
          exact hsrcz'
        · intro gn g hget
          have hgmem : g ∈ gs := by
            have hmem : g ∈ gs.dropLast := List.get?_mem hget
            have hgsne : gs ≠ [] := by
              intro h
              rw [h] at hlen
              simp at hlen
            conv => rw [← List.dropLast_append_getLast hgsne]
            exact List.mem_append_left _ hmem
          rw [← hn₃]
          exact htgruns gn g hget (hallne g hgmem)
  · refine ⟨_, ?_, ⟨_, hdevlook₃,
        (zeroExtendDev_fields opts _ nbits.length).1,
        (zeroExtendDev_fields opts _ nbits.length).2⟩, hsrcnb₃, htg₃, ?_⟩
    · rw [hred, if_neg hgt]
    · intro h2
      exact absurd h2 hgt

/-- C7 (amended): the `$mem` lowering evaluates the `INIT` character
array before the presence guard, so an absent `INIT` parameter throws a
`TypeError` instead of emitting a `Memory` device without `memdata`;
for a present, non-empty string `INIT` the device's `memdata` slices
the string into `words` words of `bits` characters counted from the
right (least significant) end, left-padding the top word with `'x'`
when the most significant character of `INIT` is `'x'` and `'0'`
otherwise. -/
theorem c7_mem_memdata (b w : Nat) (s : String) (hs : s ≠ "") :
    mem_memdata none b w = .error "TypeError" ∧
    mem_memdata (some (.str s)) b w =
      .ok (some ((List.range w).map (fun k => memWordSpec s b k
        (if s.toList.head? = some 'x' then 'x' else '0')))) := by
  refine ⟨rfl, ?_⟩
  have htruthy : jsTruthy (.str s) = true := by simp [jsTruthy, hs]
  simp only [mem_memdata, htruthy, if_true]
  congr 2
  unfold memdataWords initChars
  have hpad : (if s.toList.reverse.getLast? = some 'x' then 'x' else '0') =
      (if s.toList.head? = some 'x' then 'x' else '0') := by
    rw [List.getLast?_reverse]
  rw [hpad]
  refine List.map_congr_left ?_
  intro k _
  unfold memWordSpec
  have hlen : s.length = s.toList.length := rfl
  have hwrd : ((s.toList.reverse.drop (b * k)).take b).reverse =
      (s.toList.drop (s.length - b * (k + 1))).take
        ((s.length - b * k) - (s.length - b * (k + 1))) := by
    rw [List.drop_reverse, List.take_reverse, List.reverse_reverse]
    rw [List.length_take, List.drop_take]
    have h1 : min (s.toList.length - b * k) s.toList.length =
        s.toList.length - b * k := by omega
    rw [h1]
    have h2 : s.toList.length - b * k - b = s.length - b * (k + 1) := by
      rw [hlen, Nat.mul_succ]
      omega
    rw [h2, ← hlen]
  have hlw : ((s.toList.reverse.drop (b * k)).take b).length =
      ((s.toList.drop (s.length - b * (k + 1))).take
        ((s.length - b * k) - (s.length - b * (k + 1)))).length := by
    rw [← hwrd, List.length_reverse]
  simp only
  rw [List.reverse_append, List.reverse_replicate, hwrd, hlw]

theorem c7_mem_memdata_witness :
    ("x010011" : String) ≠ "" ∧
    (mem_memdata none 4 2 = .error "TypeError" ∧
    mem_memdata (some (.str "x010011")) 4 2 =
      .ok (some ((List.range 2).map (fun k => memWordSpec "x010011" 4 k
        (if ("x010011" : String).toList.head? = some 'x' then 'x' else '0'))))) ∧
    (List.range 2).map (fun k => memWordSpec "x010011" 4 k
        (if ("x010011" : String).toList.head? = some 'x' then 'x' else '0')) =
      ["0011", "xx01"] :=
  ⟨by decide, c7_mem_memdata 4 2 "x010011" (by decide), by decide⟩

/-- C7 counterexample to the original claim's reading of the absent
case: a `$mem` cell without an `INIT` parameter does not produce a
`Memory` device lacking `memdata` — the lowering splits
`cell.parameters.INIT` before the presence check and throws a
`TypeError`, so no result is produced at all. -/
theorem c7_mem_memdata_counterexample :
    mem_memdata none 4 2 = .error "TypeError" ∧
    ∀ r : Option (List String), mem_memdata none 4 2 ≠ .ok r := by
  refine ⟨rfl, fun r h => ?_⟩
  simp [mem_memdata] at h

/-- C9: the I/O UI mapper relabels each `Input`/`Output` device with its
port net name and rewrites its type: a 1-bit input named `clk`/`clock`
becomes a `Clock` with propagation 100; remaining inputs become `Button`
(1-bit) or `NumEntry`; outputs become `Lamp` (1-bit), `Display7` (8-bit
named `display7` or `display7_…`) or `NumDisplay`.  `io_ui` applies the
rewriting to every device of the module. -/
theorem c9_io_ui (dev : Device) :
    (dev.type = "Input" →
      (io_ui_dev dev).label = dev.net ∧
      (io_ui_dev dev).type =
        (if dev.bits = some 1 ∧ (dev.net = some "clk" ∨ dev.net = some "clock")
          then "Clock"
          else if dev.bits = some 1 then "Button" else "NumEntry") ∧
      (dev.bits = some 1 ∧ (dev.net = some "clk" ∨ dev.net = some "clock") →
        (io_ui_dev dev).propagation = some 100)) ∧
    (dev.type = "Output" →
      (io_ui_dev dev).label = dev.net ∧
      (io_ui_dev dev).type =
        (if dev.bits = some 1 then "Lamp"
          else if dev.bits = some 8 ∧ (dev.net = some "display7" ∨
            ((dev.net.getD "").startsWith "display7_")) then "Display7"
          else "NumDisplay")) ∧
    (∀ devices : List (Nat × Device),
      io_ui devices = devices.map (fun e => (e.1, io_ui_dev e.2))) := by
  refine ⟨?_, ?_, fun _ => rfl⟩
  · intro h
    by_cases hb : dev.bits = some 1
    · by_cases hc : dev.net = some "clk" ∨ dev.net = some "clock"
      · have hcb : (dev.net == some "clk" || dev.net == some "clock") = true := by
          rcases hc with hc | hc <;> simp [hc]
        refine ⟨?_, ?_, ?_⟩ <;>
          simp [io_ui_dev, h, hb, hc, hcb]
      · have hcb : (dev.net == some "clk" || dev.net == some "clock") = false := by
          push_neg at hc
          simp [hc.1, hc.2]
        refine ⟨?_, ?_, ?_⟩ <;>
          simp [io_ui_dev, h, hb, hc, hcb]
    · have hb' : (dev.bits == some 1) = false := by simp [hb]
      refine ⟨?_, ?_, ?_⟩ <;>
        simp [io_ui_dev, h, hb, hb']
  · intro h
    have hio : ¬(dev.type = "Input") := by rw [h]; decide
    by_cases hb : dev.bits = some 1
    · exact ⟨by simp [io_ui_dev, h, hio], by simp [io_ui_dev, h, hio, hb]⟩
    · have hb' : (dev.bits == some 1) = false := by simp [hb]
      by_cases h8 : dev.bits = some 8
      · by_cases hd : dev.net = some "display7" ∨ ((dev.net.getD "").startsWith "display7_")
        · have hdb : (dev.net == some "display7"
              || ((dev.net.getD "").startsWith "display7_")) = true := by
            rcases hd with hd | hd <;> simp [hd]
          exact ⟨by simp [io_ui_dev, h, hio],
            by simp [io_ui_dev, h, hio, hb, hb', h8, hd, hdb]⟩
        · have hdb : (dev.net == some "display7"
              || ((dev.net.getD "").startsWith "display7_")) = false := by
            push_neg at hd
            simp [hd.1, hd.2]
          exact ⟨by simp [io_ui_dev, h, hio],
            by simp [io_ui_dev, h, hio, hb, hb', h8, hd, hdb]⟩
      · have h8' : (dev.bits == some 8) = false := by simp [h8]
        exact ⟨by simp [io_ui_dev, h, hio],
          by simp [io_ui_dev, h, hio, hb, hb', h8, h8']⟩

theorem c9_io_ui_witness :
    let dev : Device := { type := "Input", net := some "clk", bits := some 1 }
    (dev.type = "Input" →
      (io_ui_dev dev).label = dev.net ∧
      (io_ui_dev dev).type =
        (if dev.bits = some 1 ∧ (dev.net = some "clk" ∨ dev.net = some "clock")
          then "Clock"
          else if dev.bits = some 1 then "Button" else "NumEntry") ∧
      (dev.bits = some 1 ∧ (dev.net = some "clk" ∨ dev.net = some "clock") →
        (io_ui_dev dev).propagation = some 100)) ∧
    (dev.type = "Output" →
      (io_ui_dev dev).label = dev.net ∧
      (io_ui_dev dev).type =
        (if dev.bits = some 1 then "Lamp"
          else if dev.bits = some 8 ∧ (dev.net = some "display7" ∨
            ((dev.net.getD "").startsWith "display7_")) then "Display7"
          else "NumDisplay")) ∧
    (∀ devices : List (Nat × Device),
      io_ui devices = devices.map (fun e => (e.1, io_ui_dev e.2))) :=
  c9_io_ui { type := "Input", net := some "clk", bits := some 1 }

theorem lookupEntry_isSome_of_mem_keys {α β : Type} [DecidableEq α] {k : α}
    {l : List (α × β)} (h : k ∈ l.map Prod.fst) : (lookupEntry k l).isSome = true := by
  induction l with
  | nil => simp at h
  | cons hd tl ih =>
    obtain ⟨a, b⟩ := hd
    by_cases ha : a = k
    · simp [lookupEntry, ha]
    · simp only [List.map_cons, List.mem_cons] at h
      rcases h with h | h
      · exact absurd h.symm ha
      · simp only [lookupEntry, ha, if_false]
        exact ih h

theorem indexOf_getLast_eq {α : Type} [DecidableEq α] (l : List α) (hl : l ≠ [])
    (hn : l.Nodup) : l.indexOf (l.getLast hl) = l.length - 1 := by
  have hnotin : l.getLast hl ∉ l.dropLast := by
    have hn' := hn
    conv at hn' => rw [← List.dropLast_append_getLast hl]
    rw [List.nodup_append] at hn'
    exact fun hm => (hn'.2.2 hm) (List.mem_singleton_self _)
  have hsplit : l.dropLast ++ [l.getLast hl] = l := List.dropLast_append_getLast hl
  have h1 : List.indexOf (l.getLast hl) (l.dropLast ++ [l.getLast hl]) =
      l.dropLast.length := by
    rw [List.indexOf_append_of_not_mem hnotin, List.indexOf_cons_self, Nat.add_zero]
  rw [hsplit] at h1
  rw [h1, List.length_dropLast]

theorem module_deps_inf_edge (data : List (String × DepModule)) (m : String)
    (hm : m ∈ data.map Prod.fst) : (V.str m, V.inf) ∈ module_deps data := by
  obtain ⟨pr, hpr, hfst⟩ := List.mem_map.mp hm
  refine List.mem_flatMap.mpr ⟨pr, hpr, ?_⟩
  rw [hfst]
  exact List.mem_cons_self _ _

theorem module_deps_cell_edge (data : List (String × DepModule))
    (pm : String × DepModule) (hpm : pm ∈ data) (c : String × String)
    (hc : c ∈ pm.2.cells) (hmod : (lookupEntry c.2 data).isSome = true) :
    (V.str c.2, V.str pm.1) ∈ module_deps data := by
  refine List.mem_flatMap.mpr ⟨pm, hpm, List.mem_cons_of_mem _ ?_⟩
  exact List.mem_filterMap.mpr ⟨c, hc, by simp [hmod]⟩

/-- Elements of the sub-circuit list built from a run of module-name
vertices. -/
theorem assemble_filterMap_facts {M : Type} (convert : String → M) (rest : List V)
    (h : ∀ v ∈ rest, ∃ m, v = V.str m) :
    ((rest.filterMap (fun v => match v with
        | V.str s => some (s, convert s)
        | V.inf => none)).map (fun e => V.str e.1) = rest) ∧
    (∀ e ∈ rest.filterMap (fun v => match v with
        | V.str s => some (s, convert s)
        | V.inf => none), e.2 = convert e.1) ∧
    (∀ m : String, (∃ x, (m, x) ∈ rest.filterMap (fun v => match v with
        | V.str s => some (s, convert s)
        | V.inf => none)) ↔ V.str m ∈ rest) := by
  induction rest with
  | nil => simp
  | cons v tl ih =>
    obtain ⟨m, rfl⟩ := h v (List.mem_cons_self _ _)
    obtain ⟨ih1, ih2, ih3⟩ := ih (fun v hv => h v (List.mem_cons_of_mem _ hv))
    refine ⟨?_, ?_, ?_⟩
    · simp only [List.filterMap_cons, List.map_cons]
      rw [ih1]
    · intro e he
      simp only [List.filterMap_cons] at he
      rcases List.mem_cons.mp he with h1 | h1
      · rw [h1]
      · exact ih2 e h1
    · intro m'
      simp only [List.filterMap_cons, List.mem_cons]
      constructor
      · rintro ⟨x, hx | hx⟩
        · left
          obtain ⟨h1, -⟩ := Prod.mk.injEq .. ▸ hx
          rw [h1]
        · right
          exact (ih3 m').mp ⟨x, hx⟩
      · rintro (h1 | h1)
        · obtain rfl : m' = m := by injection h1
          exact ⟨convert m', Or.inl rfl⟩
        · obtain ⟨x, hx⟩ := (ih3 m').mpr h1
          exact ⟨x, Or.inr hx⟩

/-- C1: on an input whose instantiation graph admits a topological order
and has a unique never-instantiated module `t`, the sorter's order ends
with the infinity sink followed (one position earlier) by `t`; the
assembler returns `t`'s converted graph as the top level and keys
exactly the other modules into `subcircuits`, in the sorter's order with
the sink and top module removed. -/
theorem c1_top_level_assembly {M : Type} (data : List (String × DepModule))
    (convert : String → M) (dflt : M) (t : String) (order : List V)
    (ht : t ∈ data.map Prod.fst)
    (huninst : ∀ pm ∈ data, ∀ c ∈ pm.2.cells, c.2 ≠ t)
    (hinst : ∀ m ∈ data.map Prod.fst, m ≠ t → ∃ pm ∈ data, ∃ c ∈ pm.2.cells, c.2 = m)
    (horder : isTopolOrder (module_deps data) (depVerts data) order) :
    order.getLast? = some V.inf ∧
    (order.dropLast).getLast? = some (V.str t) ∧
    (assemble convert dflt order).1 = convert t ∧
    ((assemble convert dflt order).2.map (fun e => V.str e.1) =
      order.dropLast.dropLast) ∧
    (∀ e ∈ (assemble convert dflt order).2, e.2 = convert e.1) ∧
    (∀ m : String, (∃ x, (m, x) ∈ (assemble convert dflt order).2) ↔
      (m ∈ data.map Prod.fst ∧ m ≠ t)) := by
  obtain ⟨hnodO, hOsub, hVsub, hE⟩ := horder
  have hinfmem : V.inf ∈ order := hVsub _ (List.mem_cons_self _ _)
  have hone : order ≠ [] := List.ne_nil_of_mem hinfmem
  -- step 1: the last element of the order is the infinity sink
  have hlast : order.getLast hone = V.inf := by
    have hmem : order.getLast hone ∈ order := List.getLast_mem hone
    rcases hv : order.getLast hone with m | _
    · exfalso
      have hmv : V.str m ∈ depVerts data := hOsub _ (hv ▸ hmem)
      have hmnames : m ∈ data.map Prod.fst := by
        rcases List.mem_cons.mp hmv with h1 | h1
        · exact absurd h1 (by simp)
        · obtain ⟨nm, hnm, he⟩ := List.mem_map.mp h1
          obtain rfl : nm.1 = m := by injection he
          exact List.mem_map.mpr ⟨nm, hnm, rfl⟩
      have hedge := hE _ (module_deps_inf_edge data m hmnames)
      have hidx : order.indexOf (V.str m) = order.length - 1 := by
        rw [← hv]
        exact indexOf_getLast_eq order hone hnodO
      have hlt : order.indexOf V.inf < order.length :=
        List.indexOf_lt_length.mpr hinfmem
      simp only [hidx] at hedge
      omega
    · rfl
  have hsplit : order.dropLast ++ [V.inf] = order := by
    conv_rhs => rw [← List.dropLast_append_getLast hone]
    rw [hlast]
  have hc1 : order.getLast? = some V.inf := by
    rw [List.getLast?_eq_getLast _ hone, hlast]
  -- membership in the prefix
  have hinfnotin : V.inf ∉ order.dropLast := by
    have hn' := hnodO
    conv at hn' => rw [← hsplit]
    rw [List.nodup_append] at hn'
    exact fun hm => (hn'.2.2 hm) (List.mem_singleton_self _)
  have hmempre : ∀ m : String, m ∈ data.map Prod.fst ↔ V.str m ∈ order.dropLast := by
    intro m
    constructor
    · intro hm
      have : V.str m ∈ order := hVsub _ (List.mem_cons_of_mem _
        (List.mem_map.mpr (by
          obtain ⟨pr, hpr, hfst⟩ := List.mem_map.mp hm
          exact ⟨pr, hpr, by rw [hfst]⟩)))
      conv at this => rw [← hsplit]
      rcases List.mem_append.mp this with h1 | h1
      · exact h1
      · rw [List.mem_singleton] at h1
        exact absurd h1 (by simp)
    · intro hm
      have : V.str m ∈ order := by
        conv => rw [← hsplit]
        exact List.mem_append_left _ hm
      have hmv := hOsub _ this
      rcases List.mem_cons.mp hmv with h1 | h1
      · exact absurd h1 (by simp)
      · obtain ⟨nm, hnm, he⟩ := List.mem_map.mp h1
        obtain rfl : nm.1 = m := by injection he
        exact List.mem_map.mpr ⟨nm, hnm, rfl⟩
  have hpne : order.dropLast ≠ [] :=
    List.ne_nil_of_mem ((hmempre t).mp ht)
  have hnodP : order.dropLast.Nodup := by
    have hn' := hnodO
    conv at hn' => rw [← hsplit]
    exact hn'.of_append_left
  -- step 2: the last element of the prefix is the top module
  have hlastP : order.dropLast.getLast hpne = V.str t := by
    have hmem : order.dropLast.getLast hpne ∈ order.dropLast := List.getLast_mem hpne
    rcases hv : order.dropLast.getLast hpne with m | _
    · have hmnames : m ∈ data.map Prod.fst := (hmempre m).mpr (hv ▸ hmem)
      by_cases hmt : m = t
      · rw [hmt]
      · exfalso
        obtain ⟨pm, hpm, c, hc, hcm⟩ := hinst m hmnames hmt
        have hedge := hE _ (module_deps_cell_edge data pm hpm c hc
          (by rw [hcm]; exact lookupEntry_isSome_of_mem_keys hmnames))
        rw [hcm] at hedge
        have hpmem : V.str pm.1 ∈ order.dropLast :=
          (hmempre pm.1).mp (List.mem_map.mpr ⟨pm, hpm, rfl⟩)
        have hidxm : order.indexOf (V.str m) = order.dropLast.length - 1 := by
          conv_lhs => rw [← hsplit]
          rw [List.indexOf_append_of_mem (hv ▸ hmem), ← hv,
            indexOf_getLast_eq _ hpne hnodP]
        have hidxp : order.indexOf (V.str pm.1) = order.dropLast.indexOf (V.str pm.1) := by
          conv_lhs => rw [← hsplit]
          rw [List.indexOf_append_of_mem hpmem]
        have hltp : order.dropLast.indexOf (V.str pm.1) < order.dropLast.length :=
          List.indexOf_lt_length.mpr hpmem
        rw [hidxm, hidxp] at hedge
        omega
    · exfalso
      exact hinfnotin (hv ▸ hmem)
  have hc2 : (order.dropLast).getLast? = some (V.str t) := by
    rw [List.getLast?_eq_getLast _ hpne, hlastP]
  have hsplitP : order.dropLast.dropLast ++ [V.str t] = order.dropLast := by
    conv_rhs => rw [← List.dropLast_append_getLast hpne]
    rw [hlastP]
  have htnotin : V.str t ∉ order.dropLast.dropLast := by
    have hn' := hnodP
    conv at hn' => rw [← hsplitP]
    rw [List.nodup_append] at hn'
    exact fun hm => (hn'.2.2 hm) (List.mem_singleton_self _)
  have hreststr : ∀ v ∈ order.dropLast.dropLast, ∃ m, v = V.str m := by
    intro v hv
    have hvp : v ∈ order.dropLast := by
      conv => rw [← hsplitP]
      exact List.mem_append_left _ hv
    rcases v with m | _
    · exact ⟨m, rfl⟩
    · exact absurd hvp hinfnotin
  have hassemble : assemble convert dflt order =
      (convert t, order.dropLast.dropLast.filterMap (fun v => match v with
        | V.str s => some (s, convert s)
        | V.inf => none)) := by
    simp only [assemble]
    rw [hc2]
  obtain ⟨hf1, hf2, hf3⟩ := assemble_filterMap_facts convert order.dropLast.dropLast hreststr
  refine ⟨hc1, hc2, by rw [hassemble], by rw [hassemble]; exact hf1,
    by rw [hassemble]; exact hf2, ?_⟩
  intro m
  rw [hassemble]
  simp only
  rw [hf3 m]
  constructor
  · intro hm
    have hmp : V.str m ∈ order.dropLast := by
      conv => rw [← hsplitP]
      exact List.mem_append_left _ hm
    refine ⟨(hmempre m).mpr hmp, ?_⟩
    intro hmt
    subst hmt
    exact htnotin hm
  · rintro ⟨hm, hmt⟩
    have hmp := (hmempre m).mp hm
    conv at hmp => rw [← hsplitP]
    rcases List.mem_append.mp hmp with h1 | h1
    · exact h1
    · rw [List.mem_singleton] at h1
      exact absurd (by injection h1) hmt

/-- A two-module design: `top` instantiates `sub` once; `sub` has no
cells. -/
def c1Data : List (String × DepModule) :=
  [("top", { cells := [("c1", "sub")] }), ("sub", { cells := [] })]

/-- A topological order of `c1Data`'s dependency graph. -/
def c1Order : List V := [V.str "sub", V.str "top", V.inf]

theorem c1_top_level_assembly_witness :
    isTopolOrder (module_deps c1Data) (depVerts c1Data) c1Order ∧
    c1Order.getLast? = some V.inf ∧
    c1Order.dropLast.getLast? = some (V.str "top") ∧
    (assemble (fun s => s) "" c1Order).1 = "top" ∧
    (∀ m : String, (∃ x, (m, x) ∈ (assemble (fun s => s) "" c1Order).2) ↔
      (m ∈ c1Data.map Prod.fst ∧ m ≠ "top")) := by
  have h := c1_top_level_assembly c1Data (fun s => s) "" "top" c1Order
    (by decide) (by decide) (by decide) (by decide)
  exact ⟨by decide, h.1, h.2.1, h.2.2.1, h.2.2.2.2.2⟩

/-- C8: the converter is deterministic.  In this embedding the module
converter's finishing passes and the top-level assembler are pure
functions of their inputs (the per-module state and the sorter's
order), so a second run over the same input yields identical device
ids, identical connectors and identical sub-circuit ordering.  (The
insertion-ordered hashmaps of the source are modelled by association
lists, which fixes the iteration order the JS relies on.) -/
theorem c8_deterministic {M : Type} (opts : Option Nat) (s t : ConvState)
    (hst : s = t) (convert : String → M) (dflt : M) (order order' : List V)
    (ho : order = order') :
    finishPasses opts s = finishPasses opts t ∧
    assemble convert dflt order = assemble convert dflt order' :=
  ⟨by rw [hst], by rw [ho]⟩

/-- A small nonempty state for exercising determinism: one `Input`
device driving bit 2. -/
def c8State : ConvState :=
  let s := (add_device none {} { type := "Input", net := some "x", order := some 0, bits := some 1 }).2
  match add_net_source s [Bit.id 2] 0 "out" true with
  | .ok s' => s'
  | .error _ => s

theorem c8_deterministic_witness :
    finishPasses none c8State = finishPasses none c8State ∧
    assemble (fun s => s) "" [V.str "m", V.inf] =
      assemble (fun s => s) "" [V.str "m", V.inf] :=
  c8_deterministic none c8State c8State rfl (fun s => s) ""
    [V.str "m", V.inf] [V.str "m", V.inf] rfl

/-! ### Constant replication at emission -/

/-- The number of connectors whose `from` field references device `d`. -/
def countFrom (cs : List Connector) (d : Nat) : Nat :=
  (cs.filter (fun c => c.fromP.id == d)).length

/-- The connectors emitted for the targets after the first one of a
`Constant`-sourced net: each is redirected to a fresh device id,
allocated consecutively from `n₀`. -/
def replConns (nm : Option String) (n₀ : Nat) : List Port → List Connector
  | [] => []
  | t :: rest =>
    { fromP := Port.mk n₀ "out", toP := t, name := nm } :: replConns nm (n₀ + 1) rest

/-- The freshly synthesized `Constant` devices, all carrying the
original source's payload `P`. -/
def replDevs (opts : Option Nat) (P : Option String) (n₀ : Nat) : Nat → List (Nat × Device)
  | 0 => []
  | m + 1 => (n₀, withPropagation opts { type := "Constant", constant := P }) ::
      replDevs opts P (n₀ + 1) m

/-- The device-net index entries of the freshly synthesized devices. -/
def emptyDevnets (n₀ : Nat) : Nat → List (Nat × List (String × List Bit))
  | 0 => []
  | m + 1 => (n₀, []) :: emptyDevnets (n₀ + 1) m

/-- The id of a net's source device when that device is a `Constant`. -/
def constSourceId (s : ConvState) (e : List Bit × NetInfo) : Option Nat :=
  match e.2.source with
  | some src => if (lookupEntry src.id s.devices).map Device.type = some "Constant"
      then some src.id else none
  | none => none

theorem countFrom_append (A B : List Connector) (d : Nat) :
    countFrom (A ++ B) d = countFrom A d + countFrom B d := by
  simp [countFrom, List.filter_append]

theorem countFrom_singleton (c : Connector) (d : Nat) :
    countFrom [c] d = if c.fromP.id = d then 1 else 0 := by
  by_cases h : c.fromP.id = d <;> simp [countFrom, h]

theorem countFrom_eq_zero (L : List Connector) (d : Nat)
    (h : ∀ c ∈ L, c.fromP.id ≠ d) : countFrom L d = 0 := by
  simp only [countFrom, List.length_eq_zero]
  rw [List.filter_eq_nil]
  intro c hc
  simp [h c hc]

theorem countFrom_replConns_lt (nm : Option String) (rest : List Port) :
    ∀ n₀ d, d < n₀ → countFrom (replConns nm n₀ rest) d = 0 := by
  induction rest with
  | nil => intro n₀ d _; simp [replConns, countFrom]
  | cons t rest ih =>
    intro n₀ d hd
    have hne : (n₀ == d) = false := by simp; omega
    simp only [replConns, countFrom, List.filter_cons, hne]
    exact ih (n₀ + 1) d (by omega)

theorem countFrom_replConns_le (nm : Option String) (rest : List Port) :
    ∀ n₀ d, countFrom (replConns nm n₀ rest) d ≤ 1 := by
  induction rest with
  | nil => intro n₀ d; simp [replConns, countFrom]
  | cons t rest ih =>
    intro n₀ d
    by_cases hd : n₀ = d
    · subst hd
      have h0 := countFrom_replConns_lt nm rest (n₀ + 1) n₀ (by omega)
      simp only [countFrom] at h0
      simp [replConns, countFrom, List.filter_cons, h0]
    · have hne : (n₀ == d) = false := by simp [hd]
      simp only [replConns, countFrom, List.filter_cons, hne]
      exact ih (n₀ + 1) d

theorem replConns_from_mem (nm : Option String) (rest : List Port) :
    ∀ n₀, ∀ c ∈ replConns nm n₀ rest, n₀ ≤ c.fromP.id ∧ c.fromP.id < n₀ + rest.length := by
  induction rest with
  | nil => intro n₀ c hc; simp [replConns] at hc
  | cons t rest ih =>
    intro n₀ c hc
    simp only [replConns, List.mem_cons] at hc
    rcases hc with rfl | hc
    · simp
    · have := ih (n₀ + 1) c hc
      simp only [List.length_cons]
      omega

theorem countFrom_map_src (src : Port) (nm : Option String) (ts : List Port) (d : Nat)
    (h : d ≠ src.id) :
    countFrom (ts.map (fun t => { fromP := src, toP := t, name := nm })) d = 0 := by
  apply countFrom_eq_zero
  intro c hc
  obtain ⟨t, -, rfl⟩ := List.mem_map.mp hc
  simp
  omega

theorem lookupEntry_replDevs (opts : Option Nat) (P : Option String) (m : Nat) :
    ∀ n₀ d, lookupEntry d (replDevs opts P n₀ m) =
      if n₀ ≤ d ∧ d < n₀ + m
      then some (withPropagation opts { type := "Constant", constant := P }) else none := by
  induction m with
  | zero =>
    intro n₀ d
    simp only [replDevs, lookupEntry]
    rw [if_neg (by omega)]
  | succ m ih =>
    intro n₀ d
    simp only [replDevs, lookupEntry]
    by_cases hd : n₀ = d
    · subst hd
      simp
    · rw [if_neg hd, ih (n₀ + 1) d]
      by_cases hr : n₀ + 1 ≤ d ∧ d < n₀ + 1 + m
      · rw [if_pos hr, if_pos (by omega)]
      · rw [if_neg hr, if_neg (by omega)]

theorem replDevs_keys_lt (opts : Option Nat) (P : Option String) (m : Nat) :
    ∀ n₀, ∀ e ∈ replDevs opts P n₀ m, n₀ ≤ e.1 ∧ e.1 < n₀ + m := by
  induction m with
  | zero => intro n₀ e he; simp [replDevs] at he
  | succ m ih =>
    intro n₀ e he
    simp only [replDevs, List.mem_cons] at he
    rcases he with rfl | he
    · simp
    · have := ih (n₀ + 1) e he
      omega

theorem lookupEntry_append_none_right {β : Type} {d : Nat} {A B : List (Nat × β)}
    (h : lookupEntry d B = none) : lookupEntry d (A ++ B) = lookupEntry d A := by
  rw [lookupEntry_append]
  cases hl : lookupEntry d A with
  | none => exact h
  | some v => rfl

/-- The emission loop after the first connector of a `Constant`-sourced
net: each remaining target gets a fresh `Constant` device with the
source's payload and a connector redirected to it. -/
theorem emit_fold_const (opts : Option Nat) (src : Port) (nm : Option String)
    (P : Option String) (rest : List Port) :
    ∀ s₁ : ConvState,
    (lookupEntry src.id s₁.devices).map Device.type = some "Constant" →
    (lookupEntry src.id s₁.devices).bind Device.constant = P →
    rest.foldl (emit_step opts src nm) (s₁, false) =
    ({ s₁ with
        n := s₁.n + rest.length,
        devnets := s₁.devnets ++ emptyDevnets s₁.n rest.length,
        devices := s₁.devices ++ replDevs opts P s₁.n rest.length,
        connectors := s₁.connectors ++ replConns nm s₁.n rest }, false) := by
  induction rest with
  | nil =>
    intro s₁ hconst hpay
    simp [emptyDevnets, replDevs, replConns]
  | cons t rest ih =>
    intro s₁ hconst hpay
    obtain ⟨dv, hdv⟩ : ∃ dv, lookupEntry src.id s₁.devices = some dv := by
      cases h : lookupEntry src.id s₁.devices with
      | none => rw [h] at hconst; simp at hconst
      | some dv => exact ⟨dv, rfl⟩
    have hstep : emit_step opts src nm (s₁, false) t =
        ({ s₁ with
            n := s₁.n + 1,
            devnets := s₁.devnets ++ [(s₁.n, [])],
            devices := s₁.devices ++
              [(s₁.n, withPropagation opts { type := "Constant", constant := P })],
            connectors := s₁.connectors ++
              [{ fromP := Port.mk s₁.n "out", toP := t, name := nm }] }, false) := by
      simp [emit_step, add_device, hconst, hpay]
    have hconst' : (lookupEntry src.id (s₁.devices ++
        [(s₁.n, withPropagation opts { type := "Constant", constant := P })])).map
          Device.type = some "Constant" := by
      rw [lookupEntry_append_left _ hdv, ← hdv]
      exact hconst
    have hpay' : (lookupEntry src.id (s₁.devices ++
        [(s₁.n, withPropagation opts { type := "Constant", constant := P })])).bind
          Device.constant = P := by
      rw [lookupEntry_append_left _ hdv, ← hdv]
      exact hpay
    rw [List.foldl_cons, hstep, ih _ hconst' hpay']
    have hn : s₁.n + 1 + rest.length = s₁.n + (rest.length + 1) := by omega
    simp [emptyDevnets, replDevs, replConns, List.append_assoc, hn]

/-- The emission loop when the source is not a `Constant`: every target
gets a connector straight from the source. -/
theorem emit_fold_nonconst (opts : Option Nat) (src : Port) (nm : Option String)
    (rest : List Port) :
    ∀ (s₁ : ConvState) (b : Bool),
    ((lookupEntry src.id s₁.devices).map Device.type == some "Constant") = false →
    (rest.foldl (emit_step opts src nm) (s₁, b)).1 =
    { s₁ with connectors := s₁.connectors ++
        rest.map (fun t => { fromP := src, toP := t, name := nm }) } := by
  induction rest with
  | nil => intro s₁ b hnc; simp
  | cons t rest ih =>
    intro s₁ b hnc
    have hstep : emit_step opts src nm (s₁, b) t =
        ({ s₁ with connectors := s₁.connectors ++
            [{ fromP := src, toP := t, name := nm }] }, false) := by
      simp [emit_step, hnc]
    rw [List.foldl_cons, hstep,
      ih ({ s₁ with connectors := s₁.connectors ++
        [{ fromP := src, toP := t, name := nm }] }) false hnc]
    simp

theorem emit_net_none (opts : Option Nat) (s : ConvState) (k : List Bit) (i : NetInfo)
    (h : i.source = none) : emit_net opts s (k, i) = s := by
  simp [emit_net, h]

theorem emit_net_nil (opts : Option Nat) (s : ConvState) (k : List Bit) (i : NetInfo)
    (src : Port) (h : i.source = some src) (ht : i.targets = []) :
    emit_net opts s (k, i) = s := by
  simp [emit_net, h, ht]

/-- Full effect of emitting a `Constant`-sourced net with at least one
target: the first connector keeps the original source; every later
target gets a fresh `Constant` device with the same payload. -/
theorem emit_net_const (opts : Option Nat) (s : ConvState) (k : List Bit) (i : NetInfo)
    (src : Port) (t : Port) (rest : List Port) (P : Option String)
    (hs : i.source = some src) (ht : i.targets = t :: rest)
    (hconst : (lookupEntry src.id s.devices).map Device.type = some "Constant")
    (hpay : (lookupEntry src.id s.devices).bind Device.constant = P) :
    emit_net opts s (k, i) = { s with
      n := s.n + rest.length,
      devnets := s.devnets ++ emptyDevnets s.n rest.length,
      devices := s.devices ++ replDevs opts P s.n rest.length,
      connectors := s.connectors ++
        (Connector.mk src t (truthyName i.name) ::
          replConns (truthyName i.name) s.n rest) } := by
  simp only [emit_net, hs, ht, List.foldl_cons]
  have hstep : emit_step opts src (truthyName i.name) (s, true) t =
      ({ s with connectors := s.connectors ++
          [{ fromP := src, toP := t, name := truthyName i.name }] }, false) := by
    simp [emit_step]
  rw [hstep, emit_fold_const opts src (truthyName i.name) P rest
    ({ s with connectors := s.connectors ++
      [{ fromP := src, toP := t, name := truthyName i.name }] }) hconst hpay]
  simp [List.append_assoc]

/-- Full effect of emitting a net whose source is not a `Constant`:
every target's connector comes straight from the source. -/
theorem emit_net_nonconst (opts : Option Nat) (s : ConvState) (k : List Bit) (i : NetInfo)
    (src : Port) (hs : i.source = some src)
    (hnc : ((lookupEntry src.id s.devices).map Device.type == some "Constant") = false) :
    emit_net opts s (k, i) = { s with
      connectors := s.connectors ++
        i.targets.map (fun t => Connector.mk src t (truthyName i.name)) } := by
  simp only [emit_net, hs]
  exact emit_fold_nonconst opts src (truthyName i.name) i.targets s true hnc

/-- Invariant carried through the connector-emission pass: device keys
and connector `from` ids stay below the id counter, every
`Constant`-typed device is referenced by at most one connector, and the
constant sources of the nets still to be emitted are not referenced at
all yet. -/
theorem emit_fold_invariant (opts : Option Nat) (s : ConvState)
    (rest : List (List Bit × NetInfo)) :
    ∀ s' : ConvState,
    (∀ kk ∈ s'.devices.map Prod.fst, kk < s'.n) →
    s.n ≤ s'.n →
    (∀ d, d < s.n → lookupEntry d s'.devices = lookupEntry d s.devices) →
    (∀ c ∈ s'.connectors, c.fromP.id < s'.n) →
    (∀ d, (lookupEntry d s'.devices).map Device.type = some "Constant" →
      countFrom s'.connectors d ≤ 1) →
    (∀ e ∈ rest, ∀ src ∈ e.2.source.toList, src.id < s.n ∧
      ((lookupEntry src.id s.devices).map Device.type = some "Constant" →
        countFrom s'.connectors src.id = 0)) →
    rest.Pairwise (fun e₁ e₂ => (constSourceId s e₁).isSome = true →
      constSourceId s e₁ ≠ constSourceId s e₂) →
    ∀ d, (lookupEntry d (rest.foldl (emit_net opts) s').devices).map Device.type
        = some "Constant" →
      countFrom (rest.foldl (emit_net opts) s').connectors d ≤ 1 := by
  induction rest with
  | nil =>
    intro s' h1 h2 h3 h4 h5 h6 h7
    exact h5
  | cons e rest ih =>
    intro s' h1 h2 h3 h4 h5 h6 h7
    rw [List.foldl_cons]
    obtain ⟨k, i⟩ := e
    cases hsrc : i.source with
    | none =>
      rw [emit_net_none opts s' k i hsrc]
      exact ih s' h1 h2 h3 h4 h5
        (fun e' he' => h6 e' (List.mem_cons_of_mem _ he')) h7.of_cons
    | some src =>
      have hks := h6 (k, i) (List.mem_cons_self _ _) src (by simp [hsrc])
      have hframe : lookupEntry src.id s'.devices = lookupEntry src.id s.devices :=
        h3 src.id hks.1
      by_cases hC : (lookupEntry src.id s'.devices).map Device.type = some "Constant"
      · -- Constant-sourced net
        have hCs : (lookupEntry src.id s.devices).map Device.type = some "Constant" := by
          rw [← hframe]
          exact hC
        have hz0 : countFrom s'.connectors src.id = 0 := hks.2 hCs
        cases ht : i.targets with
        | nil =>
          rw [emit_net_nil opts s' k i src hsrc ht]
          exact ih s' h1 h2 h3 h4 h5
            (fun e' he' => h6 e' (List.mem_cons_of_mem _ he')) h7.of_cons
        | cons t ts =>
          rw [emit_net_const opts s' k i src t ts
            ((lookupEntry src.id s'.devices).bind Device.constant) hsrc ht hC rfl]
          apply ih
          · intro kk hkk
            have hkk' : kk ∈ (s'.devices ++ replDevs opts
                ((lookupEntry src.id s'.devices).bind Device.constant)
                s'.n ts.length).map Prod.fst := hkk
            rw [List.map_append] at hkk'
            rcases List.mem_append.mp hkk' with h | h
            · exact lt_of_lt_of_le (h1 kk h) (Nat.le_add_right _ _)
            · obtain ⟨ee, hee, rfl⟩ := List.mem_map.mp h
              exact (replDevs_keys_lt _ _ ts.length s'.n ee hee).2
          · exact le_trans h2 (Nat.le_add_right _ _)
          · intro d hd
            have hnone : lookupEntry d (replDevs opts
                ((lookupEntry src.id s'.devices).bind Device.constant)
                s'.n ts.length) = none := by
              rw [lookupEntry_replDevs]
              rw [if_neg (by omega)]
            exact (lookupEntry_append_none_right hnone).trans (h3 d hd)
          · intro c hc
            have hc' : c ∈ s'.connectors ++
                (Connector.mk src t (truthyName i.name) ::
                  replConns (truthyName i.name) s'.n ts) := hc
            rcases List.mem_append.mp hc' with h | h
            · exact lt_of_lt_of_le (h4 c h) (Nat.le_add_right _ _)
            · rcases List.mem_cons.mp h with h | h
              · subst h
                exact lt_of_lt_of_le (lt_of_lt_of_le hks.1 h2) (Nat.le_add_right _ _)
              · exact (replConns_from_mem (truthyName i.name) ts s'.n c h).2
          · intro d hd
            have hd' : (lookupEntry d (s'.devices ++ replDevs opts
                ((lookupEntry src.id s'.devices).bind Device.constant)
                s'.n ts.length)).map Device.type = some "Constant" := hd
            have hgoal : countFrom (s'.connectors ++
                (Connector.mk src t (truthyName i.name) ::
                  replConns (truthyName i.name) s'.n ts)) d ≤ 1 := by
              rw [show (Connector.mk src t (truthyName i.name) ::
                  replConns (truthyName i.name) s'.n ts) =
                [Connector.mk src t (truthyName i.name)] ++
                  replConns (truthyName i.name) s'.n ts from rfl]
              rw [countFrom_append, countFrom_append, countFrom_singleton]
              by_cases hds : d = src.id
              · have hc1 : ((Connector.mk src t (truthyName i.name)).fromP.id = d) := hds.symm
                rw [if_pos hc1]
                have hcz : countFrom s'.connectors d = 0 := by rw [hds]; exact hz0
                have hrz : countFrom (replConns (truthyName i.name) s'.n ts) d = 0 :=
                  countFrom_replConns_lt _ ts s'.n d (by omega)
                omega
              · rw [if_neg (fun h => hds h.symm)]
                cases hl : lookupEntry d s'.devices with
                | some dv =>
                  rw [lookupEntry_append_left _ hl] at hd'
                  have h5d := h5 d (by rw [hl]; exact hd')
                  have hdlt : d < s'.n := h1 d (mem_keys_of_lookupEntry hl)
                  have hrz : countFrom (replConns (truthyName i.name) s'.n ts) d = 0 :=
                    countFrom_replConns_lt _ ts s'.n d hdlt
                  omega
                | none =>
                  rw [lookupEntry_append_right _ hl] at hd'
                  have hdin : s'.n ≤ d := by
                    rw [lookupEntry_replDevs] at hd'
                    by_cases hr : s'.n ≤ d ∧ d < s'.n + ts.length
                    · exact hr.1
                    · rw [if_neg hr] at hd'
                      simp at hd'
                  have hcz : countFrom s'.connectors d = 0 := by
                    apply countFrom_eq_zero
                    intro c hc
                    have := h4 c hc
                    omega
                  have hrle := countFrom_replConns_le (truthyName i.name) ts s'.n d
                  omega
            exact hgoal
          · intro e' he' src' hsrc'
            obtain ⟨hlt', hz'⟩ := h6 e' (List.mem_cons_of_mem _ he') src' hsrc'
            refine ⟨hlt', fun hcst => ?_⟩
            have hsrce' : e'.2.source = some src' := Option.mem_def.mp
              (Option.mem_toList.mp hsrc')
            have hne : src.id ≠ src'.id := by
              have hp := (List.pairwise_cons.mp h7).1 e' he'
              have hcs : constSourceId s (k, i) = some src.id := by
                simp [constSourceId, hsrc, hCs]
              have hcs' : constSourceId s e' = some src'.id := by
                simp [constSourceId, hsrce', hcst]
              have hneq := hp (by rw [hcs]; rfl)
              rw [hcs, hcs'] at hneq
              intro hde
              exact hneq (by rw [hde])
            have hgoal : countFrom (s'.connectors ++
                (Connector.mk src t (truthyName i.name) ::
                  replConns (truthyName i.name) s'.n ts)) src'.id = 0 := by
              rw [show (Connector.mk src t (truthyName i.name) ::
                  replConns (truthyName i.name) s'.n ts) =
                [Connector.mk src t (truthyName i.name)] ++
                  replConns (truthyName i.name) s'.n ts from rfl]
              rw [countFrom_append, countFrom_append, countFrom_singleton,
                hz' hcst, if_neg hne,
                countFrom_replConns_lt _ ts s'.n src'.id (by omega)]
            exact hgoal
          · exact h7.of_cons
      · -- non-Constant source
        have hncb : ((lookupEntry src.id s'.devices).map Device.type ==
            some "Constant") = false := by
          simpa using hC
        rw [emit_net_nonconst opts s' k i src hsrc hncb]
        apply ih
        · exact h1
        · exact h2
        · exact h3
        · intro c hc
          have hc' : c ∈ s'.connectors ++
              i.targets.map (fun t => Connector.mk src t (truthyName i.name)) := hc
          rcases List.mem_append.mp hc' with h | h
          · exact h4 c h
          · obtain ⟨t, -, rfl⟩ := List.mem_map.mp h
            exact lt_of_lt_of_le hks.1 h2
        · intro d hd
          have hd' : (lookupEntry d s'.devices).map Device.type = some "Constant" := hd
          have hgoal : countFrom (s'.connectors ++
              i.targets.map (fun t => Connector.mk src t (truthyName i.name))) d ≤ 1 := by
            rw [countFrom_append, countFrom_map_src src _ _ d
              (fun hde => hC (hde ▸ hd'))]
            have := h5 d hd'
            omega
          exact hgoal
        · intro e' he' src' hsrc'
          obtain ⟨hlt', hz'⟩ := h6 e' (List.mem_cons_of_mem _ he') src' hsrc'
          refine ⟨hlt', fun hcst => ?_⟩
          have hne : src'.id ≠ src.id := by
            intro hde
            apply hC
            rw [hframe, ← hde]
            exact hcst
          have hgoal : countFrom (s'.connectors ++
              i.targets.map (fun t => Connector.mk src t (truthyName i.name)))
                src'.id = 0 := by
            rw [countFrom_append, hz' hcst, countFrom_map_src src _ _ _ hne]
          exact hgoal
        · exact h7.of_cons

/-- Unwrap a conversion step that is known to succeed (used only to
build concrete example states). -/
def orElseState (r : Except String ConvState) (s : ConvState) : ConvState :=
  match r with
  | .ok s' => s'
  | .error _ => s

/-- The state reached by converting a module with 1-bit inputs `x`
(bit 2) and `y` (bit 3), a 2-bit output `o2` on vector `[2,3]` and a
3-bit output `o3` on vector `[2,3,"0"]`, after the grouping pass has
handled the nets up to and including `[2,3]` (which received a
`BusGroup` source, device 4). -/
def c3MidState : ConvState :=
  let s : ConvState := {}
  let s := (add_device none s { type := "Input", net := some "x", order := some 0, bits := some 1 }).2
  let s := orElseState (add_net_source s [Bit.id 2] 0 "out" true) s
  let s := (add_device none s { type := "Input", net := some "y", order := some 1, bits := some 1 }).2
  let s := orElseState (add_net_source s [Bit.id 3] 1 "out" true) s
  let s := (add_device none s { type := "Output", net := some "o2", order := some 2, bits := some 2 }).2
  let s := add_net_target s [Bit.id 2, Bit.id 3] 2 "in"
  let s := (add_device none s { type := "Output", net := some "o3", order := some 3, bits := some 3 }).2
  let s := add_net_target s [Bit.id 2, Bit.id 3, Bit.const '0'] 3 "in"
  let s := orElseState (group_step none s [Bit.id 2]) s
  let s := orElseState (group_step none s [Bit.id 3]) s
  orElseState (group_step none s [Bit.id 2, Bit.id 3]) s

/-- The result of the grouping step on the remaining net `[2,3,"0"]` of
`c3MidState`. -/
def c3FinalState : ConvState :=
  orElseState (group_step none c3MidState [Bit.id 2, Bit.id 3, Bit.const '0']) c3MidState

/-- C3 counterexample: in `c3MidState` the net `[2,3,"0"]` is still
without a source, its vector splits into three runs, and the final run
is a single literal `'0'` — yet its grouping step inserts only the
`ZeroExtend` device (one new device, id 5) and no `BusGroup`, because
the two-run prefix `[2,3]` already received a source when it was
processed earlier in the same pass.  This refutes the claim's
unconditional "when more than two runs remain, additionally bus-groups
the prefix". -/
theorem c3_group_step_counterexample :
    lookupEntry [Bit.id 2, Bit.id 3, Bit.const '0'] c3MidState.nets =
      some (NetInfo.mk none [Port.mk 3 "in"] none) ∧
    computeGroups c3MidState.bits [Bit.id 2, Bit.id 3, Bit.const '0'] =
      [[Bit.id 2], [Bit.id 3], [Bit.const '0']] ∧
    group_step none c3MidState [Bit.id 2, Bit.id 3, Bit.const '0'] = .ok c3FinalState ∧
    c3FinalState.devices.length = c3MidState.devices.length + 1 ∧
    (lookupEntry 5 c3FinalState.devices).map Device.type = some "ZeroExtend" ∧
    (c3FinalState.devices.filter (fun e => e.2.type == "BusGroup")).length =
      (c3MidState.devices.filter (fun e => e.2.type == "BusGroup")).length := by
  decide

/-- The same module as `c3MidState` but without the `o2` output: the
prefix `[2,3]` is not a separate driven net here, so the grouping step
does bus-group it. -/
def c3WitnessState : ConvState :=
  let s : ConvState := {}
  let s := (add_device none s { type := "Input", net := some "x", order := some 0, bits := some 1 }).2
  let s := orElseState (add_net_source s [Bit.id 2] 0 "out" true) s
  let s := (add_device none s { type := "Input", net := some "y", order := some 1, bits := some 1 }).2
  let s := orElseState (add_net_source s [Bit.id 3] 1 "out" true) s
  let s := (add_device none s { type := "Output", net := some "o3", order := some 2, bits := some 3 }).2
  add_net_target s [Bit.id 2, Bit.id 3, Bit.const '0'] 2 "in"

theorem c3_group_step_zero_extend_witness :
    lookupEntry [Bit.id 2, Bit.id 3, Bit.const '0'] c3WitnessState.nets =
      some (NetInfo.mk none [Port.mk 2 "in"] none) ∧
    computeGroups c3WitnessState.bits [Bit.id 2, Bit.id 3, Bit.const '0'] =
      [[Bit.id 2], [Bit.id 3], [Bit.const '0']] ∧
    (∃ s', group_step none c3WitnessState [Bit.id 2, Bit.id 3, Bit.const '0'] = .ok s' ∧
      (∃ dev, lookupEntry c3WitnessState.n s'.devices = some dev ∧
        dev.type = "ZeroExtend" ∧
        dev.extend = some (ExtendInfo.mk
          ([Bit.id 2, Bit.id 3, Bit.const '0'].length -
            (([[Bit.id 2], [Bit.id 3], [Bit.const '0']] :
              List (List Bit)).getLastD []).length)
          [Bit.id 2, Bit.id 3, Bit.const '0'].length)) ∧
      sourceOf s' [Bit.id 2, Bit.id 3, Bit.const '0'] =
        some (Port.mk c3WitnessState.n "out") ∧
      Port.mk c3WitnessState.n "in" ∈
        targetsOf s' ([Bit.id 2, Bit.id 3, Bit.const '0'].take
          ([Bit.id 2, Bit.id 3, Bit.const '0'].length -
            (([[Bit.id 2], [Bit.id 3], [Bit.const '0']] :
              List (List Bit)).getLastD []).length)) ∧
      (2 < ([[Bit.id 2], [Bit.id 3], [Bit.const '0']] : List (List Bit)).length →
        sourceOf c3WitnessState ([Bit.id 2, Bit.id 3, Bit.const '0'].take
          ([Bit.id 2, Bit.id 3, Bit.const '0'].length -
            (([[Bit.id 2], [Bit.id 3], [Bit.const '0']] :
              List (List Bit)).getLastD []).length)) = none →
        (∃ dev, lookupEntry (c3WitnessState.n + 1) s'.devices = some dev ∧
          dev.type = "BusGroup" ∧
          dev.groups = some ((([[Bit.id 2], [Bit.id 3], [Bit.const '0']] :
            List (List Bit)).dropLast).map List.length)) ∧
        sourceOf s' ([Bit.id 2, Bit.id 3, Bit.const '0'].take
          ([Bit.id 2, Bit.id 3, Bit.const '0'].length -
            (([[Bit.id 2], [Bit.id 3], [Bit.const '0']] :
              List (List Bit)).getLastD []).length)) =
          some (Port.mk (c3WitnessState.n + 1) "out") ∧
        (∀ gn g, (([[Bit.id 2], [Bit.id 3], [Bit.const '0']] :
            List (List Bit)).dropLast).get? gn = some g →
          Port.mk (c3WitnessState.n + 1) ("in" ++ toString gn) ∈ targetsOf s' g))) :=
  ⟨by decide, by decide,
    c3_group_step_zero_extend none c3WitnessState [Bit.id 2, Bit.id 3, Bit.const '0']
      (NetInfo.mk none [Port.mk 2 "in"] none)
      [[Bit.id 2], [Bit.id 3], [Bit.const '0']]
      (by decide) (by decide) (by decide) (by decide) (by decide) (by decide)⟩

/-- Folding the constants pass over keys other than `k` leaves the net
record of `k` untouched and preserves existing devices. -/
theorem constPass_fold_avoid (opts : Option Nat) (K : List (List Bit)) (k : List Bit) :
    ∀ s : ConvState, k ∉ K →
    ∃ s₁, K.foldlM (const_step opts) s = .ok s₁ ∧
      lookupEntry k s₁.nets = lookupEntry k s.nets ∧
      s.n ≤ s₁.n ∧
      (∀ d, d < s.n → lookupEntry d s₁.devices = lookupEntry d s.devices) ∧
      ((∀ e ∈ s.devices, e.1 < s.n) → ∀ e ∈ s₁.devices, e.1 < s₁.n) := by
  induction K with
  | nil =>
    intro s _
    exact ⟨s, rfl, rfl, le_refl _, fun _ _ => rfl, fun h => h⟩
  | cons k₀ K ih =>
    intro s hK
    have hk₀ : k ≠ k₀ := fun h => hK (h ▸ List.mem_cons_self _ _)
    have hKtl : k ∉ K := fun h => hK (List.mem_cons_of_mem _ h)
    obtain ⟨s₂, hok, hn₂, hnets₂, hdev₂, hinv₂⟩ := const_step_general opts s k₀
    obtain ⟨s₁, hok₁, hnets₁, hn₁, hdev₁, hinv₁⟩ := ih s₂ hKtl
    refine ⟨s₁, ?_, ?_, ?_, ?_, ?_⟩
    · rw [List.foldlM_cons, hok]
      exact hok₁
    · rw [hnets₁, hnets₂ k hk₀]
    · omega
    · intro d hd
      rw [hdev₁ d (by omega), hdev₂ d hd]
    · intro h
      exact hinv₁ (hinv₂ h)

/-- C5: in the constants phase, every net still without a source all of
whose bits are literal constant characters receives a fresh `Constant`
device as its source, whose payload is the bit-vector reversed into an
MSB-first string. -/
theorem c5_constants_pass (opts : Option Nat) (s₀ : ConvState) (k : List Bit)
    (info : NetInfo)
    (hnod : (s₀.nets.map Prod.fst).Nodup)
    (hkeys : ∀ e ∈ s₀.devices, e.1 < s₀.n)
    (hmem : lookupEntry k s₀.nets = some info)
    (hsrc : info.source = none)
    (hconst : ∀ b ∈ k, ∃ c, c ∈ ConstChars ∧ b = Bit.const c)
    (hk : k ≠ []) :
    ∃ s' d dev, constPass opts s₀ = .ok s' ∧
      sourceOf s' k = some (Port.mk d "out") ∧
      lookupEntry d s'.devices = some dev ∧
      dev.type = "Constant" ∧
      dev.constant = some (bitsToConstStr k) := by
  have hall : k.all constbit = true := by
    rw [List.all_eq_true]
    intro b hb
    obtain ⟨c, hc, rfl⟩ := hconst b hb
    simp only [ConstChars, List.mem_cons, List.not_mem_nil, or_false] at hc
    rcases hc with rfl | rfl | rfl | rfl <;> decide
  have hkmem : k ∈ s₀.nets.map Prod.fst := mem_keys_of_lookupEntry hmem
  obtain ⟨L₁, L₂, hL⟩ := List.append_of_mem hkmem
  have hnodL : k ∉ L₁ ∧ k ∉ L₂ := by
    rw [hL, List.nodup_append] at hnod
    exact ⟨fun hm => hnod.2.2 hm (List.mem_cons_self _ _),
      fun hm => (List.nodup_cons.mp hnod.2.1).1 hm⟩
  obtain ⟨s₁, hokA, hnetsA, hnA, hdevA, hinvA⟩ :=
    constPass_fold_avoid opts L₁ k s₀ hnodL.1
  have hmem₁ : lookupEntry k s₁.nets = some info := by rw [hnetsA, hmem]
  have hkeys₁ : ∀ e ∈ s₁.devices, e.1 < s₁.n := hinvA hkeys
  obtain ⟨s₂, hokB, hsrcB, hnB, dev, hdevB, hdevT, hdevC⟩ :=
    const_step_establish opts s₁ k info hmem₁ hsrc hall hk hkeys₁
  obtain ⟨s', hokC, hnetsC, hnC, hdevC', hinvC⟩ :=
    constPass_fold_avoid opts L₂ k s₂ hnodL.2
  refine ⟨s', s₁.n, dev, ?_, ?_, ?_, hdevT, hdevC⟩
  · unfold constPass
    rw [hL, List.foldlM_append, hokA]
    show (List.foldlM (const_step opts) s₁ (k :: L₂)) = .ok s'
    rw [List.foldlM_cons, hokB]
    exact hokC
  · unfold sourceOf
    rw [hnetsC]
    exact hsrcB
  · rw [hdevC' s₁.n (by omega)]
    exact hdevB

/-- A concrete state with one undriven all-constant net, for the C5
witness: an `Output` device consuming the vector `[1,0]`. -/
def c5ExampleState : ConvState :=
  { nets := [([Bit.const '1', Bit.const '0'],
      NetInfo.mk none [Port.mk 0 "in"] none)],
    n := 1,
    devices := [(0, { type := "Output", net := some "o", bits := some 2 })] }

theorem c5_constants_pass_witness :
    (∀ b ∈ [Bit.const '1', Bit.const '0'], ∃ c, c ∈ ConstChars ∧ b = Bit.const c) ∧
    (∃ s' d dev, constPass none c5ExampleState = .ok s' ∧
      sourceOf s' [Bit.const '1', Bit.const '0'] = some (Port.mk d "out") ∧
      lookupEntry d s'.devices = some dev ∧
      dev.type = "Constant" ∧
      dev.constant = some (bitsToConstStr [Bit.const '1', Bit.const '0'])) :=
  ⟨by decide, c5_constants_pass none c5ExampleState [Bit.const '1', Bit.const '0']
    (NetInfo.mk none [Port.mk 0 "in"] none)
    (by decide) (by decide) (by decide) (by decide) (by decide) (by decide)⟩

/-- A minimal state with one driven, named net, for the C2 witness. -/
def c2ExampleState : ConvState :=
  { nets := [([Bit.id 2], NetInfo.mk (some (Port.mk 0 "out")) [] (some "w"))] }

/-- C4: the `$pmux` wirer connects A as a target of `in0`, the reversed
select vector as a target of `sel`, Y as the primary source on `out`
(with per-bit provenance), and for each `i < S_WIDTH` the `WIDTH`-bit
slice of B at offset `(S_WIDTH-i-1)*WIDTH` as a target of `in<i+1>` —
the B vector is cut into `WIDTH`-bit slices indexed from the high end. -/
theorem c4_connect_pmux (s : ConvState) (dname : Nat) (cell : PmuxCell)
    (hW : 0 < decode_json_number cell.WIDTH)
    (hA : cell.A ≠ []) (hSne : cell.S ≠ []) (hY : cell.Y ≠ [])
    (hB : cell.B.length = decode_json_number cell.WIDTH * decode_json_number cell.S_WIDTH)
    (hsrc : sourceOf s cell.Y = none) :
    ∃ s', connect_pmux s dname cell = .ok s' ∧
      Port.mk dname "in0" ∈ targetsOf s' cell.A ∧
      Port.mk dname "sel" ∈ targetsOf s' cell.S.reverse ∧
      sourceOf s' cell.Y = some (Port.mk dname "out") ∧
      (∀ b ∈ cell.Y, ∃ j, lookupEntry b s'.bits = some (BitInfo.mk dname "out" j) ∧
        cell.Y.get? j = some b) ∧
      (∀ i, i < decode_json_number cell.S_WIDTH →
        Port.mk dname ("in" ++ toString (i + 1)) ∈
          targetsOf s'
            ((cell.B.drop
              ((decode_json_number cell.S_WIDTH - i - 1) * decode_json_number cell.WIDTH)).take
              (decode_json_number cell.WIDTH))) := by
  have hrev : cell.S.reverse ≠ [] := by
    simpa using hSne
  have hsrc2 : sourceOf
      (add_net_target (add_net_target s cell.A dname "in0") cell.S.reverse dname "sel")
      cell.Y = none := by
    rw [sourceOf_add_net_target, sourceOf_add_net_target]
    exact hsrc
  obtain ⟨s3, h3, hs3src, -, hs3tg, -, -, -, -, hs3bits, -⟩ :=
    add_net_source_ok
      (add_net_target (add_net_target s cell.A dname "in0") cell.S.reverse dname "sel")
      cell.Y dname "out" true hY hsrc2
  obtain ⟨fsrc, fmono, fmem, fbits, -, -⟩ :=
    fold_add_net_target dname
      (fun i => (cell.B.drop
        ((decode_json_number cell.S_WIDTH - i - 1) * decode_json_number cell.WIDTH)).take
        (decode_json_number cell.WIDTH))
      (fun i => "in" ++ toString (i + 1))
      (List.range (decode_json_number cell.S_WIDTH)) s3
  refine ⟨(List.range (decode_json_number cell.S_WIDTH)).foldl (fun s i =>
      add_net_target s
        ((cell.B.drop
          ((decode_json_number cell.S_WIDTH - i - 1) * decode_json_number cell.WIDTH)).take
          (decode_json_number cell.WIDTH))
        dname ("in" ++ toString (i + 1))) s3, ?_, ?_, ?_, ?_, ?_, ?_⟩
  · simp only [connect_pmux]
    rw [h3]
  · refine fmono _ _ ?_
    rw [hs3tg cell.A]
    refine mem_targetsOf_add_net_target _ _ _ _ _ _ ?_
    rw [targetsOf_add_net_target_self s cell.A dname "in0" hA]
    exact List.mem_append_right _ (List.mem_singleton_self _)
  · refine fmono _ _ ?_
    rw [hs3tg cell.S.reverse]
    rw [targetsOf_add_net_target_self _ cell.S.reverse dname "sel" hrev]
    exact List.mem_append_right _ (List.mem_singleton_self _)
  · rw [fsrc cell.Y]
    exact hs3src
  · intro b hb
    rw [fbits]
    exact hs3bits rfl b hb
  · intro i hi
    refine fmem i (List.mem_range.mpr hi) ?_
    have hle : (decode_json_number cell.S_WIDTH - i - 1) * decode_json_number cell.WIDTH
        + decode_json_number cell.WIDTH ≤ cell.B.length := by
      rw [hB]
      have h1 : decode_json_number cell.S_WIDTH - i - 1 + 1 ≤ decode_json_number cell.S_WIDTH := by
        omega
      calc (decode_json_number cell.S_WIDTH - i - 1) * decode_json_number cell.WIDTH
            + decode_json_number cell.WIDTH
          = (decode_json_number cell.S_WIDTH - i - 1 + 1) * decode_json_number cell.WIDTH := by
            rw [Nat.succ_mul]
        _ ≤ decode_json_number cell.S_WIDTH * decode_json_number cell.WIDTH :=
            Nat.mul_le_mul_right _ h1
        _ = decode_json_number cell.WIDTH * decode_json_number cell.S_WIDTH :=
            Nat.mul_comm _ _
    apply List.ne_nil_of_length_pos
    rw [List.length_take, List.length_drop]
    omega

/-- A concrete WIDTH=2, S_WIDTH=2 `$pmux` cell, for the C4 witness. -/
def pmuxExample : PmuxCell :=
  { A := [Bit.id 4, Bit.id 5], B := [Bit.id 6, Bit.id 7, Bit.id 8, Bit.id 9],
    S := [Bit.id 10, Bit.id 11], Y := [Bit.id 12, Bit.id 13],
    WIDTH := .num 2, S_WIDTH := .num 2 }

theorem c4_connect_pmux_witness :
    0 < decode_json_number pmuxExample.WIDTH ∧
    pmuxExample.B.length =
      decode_json_number pmuxExample.WIDTH * decode_json_number pmuxExample.S_WIDTH ∧
    sourceOf {} pmuxExample.Y = none ∧
    (∃ s', connect_pmux {} 7 pmuxExample = .ok s' ∧
      Port.mk 7 "in0" ∈ targetsOf s' pmuxExample.A ∧
      Port.mk 7 "sel" ∈ targetsOf s' pmuxExample.S.reverse ∧
      sourceOf s' pmuxExample.Y = some (Port.mk 7 "out") ∧
      (∀ b ∈ pmuxExample.Y, ∃ j, lookupEntry b s'.bits = some (BitInfo.mk 7 "out" j) ∧
        pmuxExample.Y.get? j = some b) ∧
      (∀ i, i < decode_json_number pmuxExample.S_WIDTH →
        Port.mk 7 ("in" ++ toString (i + 1)) ∈
          targetsOf s'
            ((pmuxExample.B.drop
              ((decode_json_number pmuxExample.S_WIDTH - i - 1) *
                decode_json_number pmuxExample.WIDTH)).take
              (decode_json_number pmuxExample.WIDTH)))) :=
  ⟨by decide, by decide, by decide,
    c4_connect_pmux {} 7 pmuxExample (by decide) (by decide) (by decide) (by decide)
      (by decide) (by decide)⟩

theorem c2_single_source_witness :
    ([Bit.id 2] : List Bit) ≠ [] ∧
    ((∀ q, sourceOf c2ExampleState [Bit.id 2] = some q →
      add_net_source c2ExampleState [Bit.id 2] 5 "out" false =
        .error ("Multiple sources driving net: " ++
          jsShowOptName (netNameAt c2ExampleState [Bit.id 2]))) ∧
    (∀ s', add_net_source c2ExampleState [Bit.id 2] 5 "out" false = .ok s' →
      sourceOf c2ExampleState [Bit.id 2] = none ∧
      sourceOf s' [Bit.id 2] = some (Port.mk 5 "out"))) :=
  ⟨by decide, c2_single_source c2ExampleState [Bit.id 2] 5 "out" false (by decide)⟩

/-- C6: in the emitted output of a module conversion, each `Constant`
device is referenced by at most one connector's `from` field; when a
`Constant`-sourced net has several targets, every connector after the
first is redirected to a freshly synthesized `Constant` device with the
same payload.  The hypotheses state the module converter's invariants
at the start of the emission pass: no connector exists yet, device keys
and net source ids are below the id counter, and no two distinct nets
share a `Constant` source device. -/
theorem c6_constant_replication (opts : Option Nat) (s : ConvState)
    (hc0 : s.connectors = [])
    (hkeys : ∀ kk ∈ s.devices.map Prod.fst, kk < s.n)
    (hsrcid : ∀ e ∈ s.nets, ∀ src ∈ e.2.source.toList, src.id < s.n)
    (huniq : s.nets.Pairwise (fun e₁ e₂ => (constSourceId s e₁).isSome = true →
      constSourceId s e₁ ≠ constSourceId s e₂)) :
    (∀ d, (lookupEntry d (emitPass opts s).devices).map Device.type = some "Constant" →
      countFrom (emitPass opts s).connectors d ≤ 1) ∧
    (∀ (s' : ConvState) (k : List Bit) (i : NetInfo) (src : Port) (t : Port)
        (rest : List Port),
      i.source = some src → i.targets = t :: rest →
      (lookupEntry src.id s'.devices).map Device.type = some "Constant" →
      emit_net opts s' (k, i) = { s' with
        n := s'.n + rest.length,
        devnets := s'.devnets ++ emptyDevnets s'.n rest.length,
        devices := s'.devices ++ replDevs opts
          ((lookupEntry src.id s'.devices).bind Device.constant) s'.n rest.length,
        connectors := s'.connectors ++
          (Connector.mk src t (truthyName i.name) ::
            replConns (truthyName i.name) s'.n rest) }) := by
  constructor
  · exact emit_fold_invariant opts s s.nets s hkeys (le_refl _)
      (fun d _ => rfl)
      (by intro c hc; rw [hc0] at hc; simp at hc)
      (by intro d _; rw [hc0]; simp [countFrom])
      (fun e he src hsrc => ⟨hsrcid e he src hsrc,
        fun _ => by rw [hc0]; simp [countFrom]⟩)
      huniq
  · intro s' k i src t rest hs ht hC
    exact emit_net_const opts s' k i src t rest _ hs ht hC rfl

/-- A state at the start of the emission pass: a `Constant` device
(id 0) sourcing bit 2, which is targeted by two `Output` devices. -/
def c6ExampleState : ConvState :=
  let s := (add_device none {} { type := "Constant", constant := some "1" }).2
  let s := orElseState (add_net_source s [Bit.id 2] 0 "out" true) s
  let s := (add_device none s { type := "Output", net := some "o1", order := some 1, bits := some 1 }).2
  let s := add_net_target s [Bit.id 2] 1 "in"
  let s := (add_device none s { type := "Output", net := some "o2", order := some 2, bits := some 1 }).2
  add_net_target s [Bit.id 2] 2 "in"

theorem c6_constant_replication_witness :
    c6ExampleState.connectors = [] ∧
    (∀ d, (lookupEntry d (emitPass none c6ExampleState).devices).map Device.type
        = some "Constant" →
      countFrom (emitPass none c6ExampleState).connectors d ≤ 1) := by
  have h := c6_constant_replication none c6ExampleState rfl
    (by decide) (by decide) (by decide)
  exact ⟨rfl, h.1⟩

end Y2D
